import Mathlib

/-!
Verification development for the Polymarket geopolitical-insights prediction
server (`backend/prediction_server.py`).

The development shallowly embeds the parts of the server that the verified
properties are about:

* the per-outcome estimate synthesizer `generate_outcome_estimates`;
* the in-memory cache `get_cached` / `set_cached` with its TTL;
* the cache-key fingerprint `generate_cache_key` (JSON payload + SHA-256);
* the parallel analysis orchestrator `run_parallel_analysis_stream` together
  with its three jobs, their event queue and the draining loop.

Modelling conventions:

* Python floats are modelled as rationals (`ℚ`); the magnitudes involved
  (market percentages) are far from any floating-point edge case, and
  `round(x, 1)` is modelled as rounding to one decimal digit (tie behaviour
  of Python's banker rounding is irrelevant to every property proved here).
* Python strings are Lean `String`s; `str.lower` / `str.strip` are modelled
  on the ASCII subset actually exercised by the server.
* Wall-clock datetimes are rationals (minutes); `datetime.now()` becomes an
  explicit `now` parameter.
* External collaborators (the Grok LLM, the X search API) are parameters of
  the model: a job's embedding is indexed by the observable outcome of its
  external calls, and the job body is translated faithfully from the source.
* Presentation-only strings (the `reasoning` field, log lines, elapsed-time
  payload fields) are omitted; no verified property mentions them.
-/

/-! ### Python semantics helpers -/

/-- Python truthiness for an optional float: `None` and `0.0` are falsy;
`x or y` keeps `x` only when it is truthy. -/
def pyTruthy (x : Option ℚ) : Option ℚ :=
  match x with
  | none => none
  | some v => if v = 0 then none else some v

/-- Python `a or b` for an optional string versus a string:
`None` and `""` are falsy. -/
def pyOrStr (a : Option String) (b : String) : String :=
  match a with
  | none => b
  | some s => if s = "" then b else s

/-- Python `str.lower()` (ASCII range, as `Char.toLower`). -/
def pyLower (s : String) : String := ⟨s.data.map Char.toLower⟩

/-- Python `str.strip()` on a character list (ASCII whitespace). -/
def pyStripL (l : List Char) : List Char :=
  ((l.dropWhile Char.isWhitespace).reverse.dropWhile Char.isWhitespace).reverse

/-- Python `str.strip()`. -/
def pyStrip (s : String) : String := ⟨pyStripL s.data⟩

/-- Python `a in b` for strings: contiguous substring test. -/
def strInB (a b : String) : Bool := decide (a.data <:+: b.data)

/-- Python `round(x, 1)`: round to one decimal digit. -/
def round1 (x : ℚ) : ℚ := (round (10 * x) : ℤ) / 10

/-- Python dict assignment `d[k] = v` on an insertion-ordered association
list: an existing key keeps its position and gets the new value, a new key
is appended. -/
def dictInsert {α : Type} (l : List (String × α)) (k : String) (v : α) :
    List (String × α) :=
  if l.any (fun p => decide (p.1 = k)) then
    l.map (fun p => if p.1 = k then (k, v) else p)
  else l ++ [(k, v)]

/-- Python dict lookup `d.get(k)` on an association list (first hit). -/
def dictGet {α : Type} (l : List (String × α)) (k : String) : Option α :=
  (l.find? (fun p => decide (p.1 = k))).map (·.2)

/-- Python `del d[k]` on an association list. -/
def dictErase {α : Type} (l : List (String × α)) (k : String) :
    List (String × α) :=
  l.filter (fun p => decide (p.1 ≠ k))

/-! ### Data model (`prediction_server.py`, pydantic models) -/

/-- `OutcomeData`: a single outcome from Polymarket. -/
structure OutcomeData where
  name : String
  probability : Option ℚ
  yesPrice : Option ℚ
  noPrice : Option ℚ
  volume_usd : Option ℚ
deriving DecidableEq

/-- `AnalyzeRequest`: request payload from the Chrome extension. -/
structure AnalyzeRequest where
  market_id : Option String
  market_title : String
  market_url : Option String
  total_volume_usd : Option ℚ
  outcomes : List OutcomeData
  force_refresh : Bool
deriving DecidableEq

/-- One odds dict inside `foundational_data["current_odds"]`; only the keys
read by the synthesizer are modelled (`dict.get` on a missing key is
`none`). -/
structure OddsDict where
  market_title : Option String
  yes_probability : Option ℚ
deriving DecidableEq

/-- An element of the `current_odds` list: either a dict or some non-dict
value (which `generate_outcome_estimates` defensively skips). -/
inductive OddsVal : Type
  | dict (d : OddsDict)
  | nondict
deriving DecidableEq

/-- The foundational job's parsed result dict, restricted to the key read by
the synthesizer; `current_odds = none` models `"current_odds" not in d`. -/
structure FoundationalDict where
  current_odds : Option (List OddsVal)
deriving DecidableEq

/-- The historical job's `model_dump()` dict, restricted to the keys read by
the synthesizer (`dict.get` on a missing key is `none`). -/
structure HistoricalDict where
  probability_estimate : Option ℚ
  overall_sentiment : Option String
  recommendation : Option String
deriving DecidableEq

/-- One element of the synthesizer's output list (`reasoning` omitted:
presentation-only). -/
structure OutcomeEstimate where
  outcome_name : String
  grok_probability : ℚ
  market_probability : ℚ
  delta : ℚ
  recommendation : String
deriving DecidableEq

/-! ### The synthesizer `generate_outcome_estimates` -/

/-- `market_prob = outcome.probability or (outcome.yesPrice * 100 if
outcome.yesPrice else None) or 50`. -/
def market_prob (o : OutcomeData) : ℚ :=
  match pyTruthy o.probability with
  | some p => p
  | none =>
    match pyTruthy o.yesPrice with
    | some y => y * 100
    | none => 50

/-- The `foundational_odds` dict: iterate `current_odds`, skip non-dicts, key
each dict by its lowercased `market_title` (later duplicates overwrite). -/
def foundational_odds (fd : Option FoundationalDict) :
    List (String × OddsDict) :=
  match fd with
  | some d =>
    match d.current_odds with
    | some l =>
      l.foldl
        (fun acc ov =>
          match ov with
          | .nondict => acc
          | .dict od => dictInsert acc (pyLower (od.market_title.getD "")) od)
        []
    | none => []
  | none => []

/-- The matching loop over `foundational_odds.items()`: the first entry whose
title fuzzily matches (substring either direction) supplies
`odds.get("yes_probability")`; a matched dict without that key leaves
`grok_prob = None`, exactly like no match at all. -/
def foundational_grok (fd : Option FoundationalDict) (nameLower : String) :
    Option ℚ :=
  match (foundational_odds fd).find?
      (fun p => strInB nameLower p.1 || strInB p.1 nameLower) with
  | some p => p.2.yes_probability
  | none => none

/-- `overall_prob`: `historical_analysis.get("probability_estimate")` when the
historical dict is present. -/
def overall_prob (hist : Option HistoricalDict) : Option ℚ :=
  hist.bind (·.probability_estimate)

/-- `overall_sentiment`: `historical_analysis.get("overall_sentiment")`. -/
def overall_sentiment (hist : Option HistoricalDict) : Option String :=
  hist.bind (·.overall_sentiment)

/-- The model (grok) probability estimate computed for one outcome, before
rounding: foundational odds first, then the overall-probability branches
(single / binary / multi-outcome), then the market-price fallback. -/
def grok_prob_for (outcomes : List OutcomeData) (fd : Option FoundationalDict)
    (hist : Option HistoricalDict) (o : OutcomeData) : ℚ :=
  let m := market_prob o
  let nameLower := pyStrip (pyLower o.name)
  match foundational_grok fd nameLower with
  | some g => g
  | none =>
    match overall_prob hist with
    | some overall =>
      if outcomes.length = 1 then overall
      else if outcomes.length = 2 then
        let idx := if o ∈ outcomes then outcomes.indexOf o else 0
        if idx = 0 then overall else 100 - overall
      else
        let adjustment : ℤ :=
          if overall_sentiment hist = some "bullish" then
            let idx : ℤ :=
              if o ∈ outcomes then outcomes.indexOf o else outcomes.length
            max 0 (10 - idx * 3)
          else if overall_sentiment hist = some "bearish" then
            let idx : ℤ := if o ∈ outcomes then outcomes.indexOf o else 0
            max 0 (idx * 2 - 5)
          else 0
        min 95 (max 5 (m + (adjustment : ℚ)))
    | none => m

/-- Assemble one estimate record: delta is the rounded difference and
the recommendation thresholds read the rounded delta. -/
def mkEstimate (outcomes : List OutcomeData) (fd : Option FoundationalDict)
    (hist : Option HistoricalDict) (o : OutcomeData) : OutcomeEstimate :=
  let m := market_prob o
  let g := grok_prob_for outcomes fd hist o
  let delta := round1 (g - m)
  { outcome_name := o.name
    grok_probability := round1 g
    market_probability := round1 m
    delta := delta
    recommendation :=
      if delta > 5 then "BUY" else if delta < -5 then "SELL" else "HOLD" }

/-- `generate_outcome_estimates`: one estimate per outcome, then a stable
sort by descending absolute delta (`estimates.sort(key=abs(delta),
reverse=True)`). -/
def generate_outcome_estimates (outcomes : List OutcomeData)
    (fd : Option FoundationalDict) (hist : Option HistoricalDict) :
    List OutcomeEstimate :=
  (outcomes.map (mkEstimate outcomes fd hist)).mergeSort
    (fun a b => decide (|b.delta| ≤ |a.delta|))

/-! ### Prominent-figures job result payloads -/

/-- The figures dict returned by `generate_prominent_figures`: the job reads
only the `prominent_figures` list (whose elements it forwards opaquely to the
tweet-fetching collaborator) and stores the whole dict; the rest of the
payload is kept as an opaque blob. -/
structure FiguresData where
  figures : List String
  blob : String
deriving DecidableEq

/-- `response.get("summary", {})` fields read by `run_prominent_figures`
(`dict.get` with a default, so every field is optional). -/
structure XSummary where
  sentiment_trend : Option String
  alpha_count : Option Nat
  total_tweets_analyzed : Option Nat
deriving DecidableEq

/-- The tweet-analysis response dict (`summary = none` models a response
without a `"summary"` key). -/
structure XResponse where
  summary : Option XSummary
deriving DecidableEq

/-- `results["prominent_figures"] = {"analysis": ..., "figures_meta": ...}`. -/
structure XResult where
  analysis : Option XResponse
  figures_meta : FiguresData
deriving DecidableEq

/-! ### The cache (`CachedResult`, `get_cached`, `set_cached`) -/

/-- `CACHE_TTL_MINUTES = 30`. -/
def CACHE_TTL_MINUTES : ℚ := 30

/-- `CachedResult` (timestamps as rational minutes instead of ISO strings;
`datetime.fromisoformat` is the identity of this modelling). -/
structure CachedResult where
  cache_key : String
  created_at : ℚ
  expires_at : ℚ
  market_title : String
  foundational_data : Option FoundationalDict
  historical_analysis : Option HistoricalDict
  prominent_figures_analysis : Option XResult
  outcome_estimates : Option (List OutcomeEstimate)
deriving DecidableEq

/-- The module-level `_cache` dict. -/
abbrev Cache := List (String × CachedResult)

/-- `get_cached`: return the entry unless expired; an entry with
`expires_at < now` is deleted and reported absent.  The (possibly mutated)
cache is returned alongside. -/
def get_cached (cache : Cache) (key : String) (now : ℚ) :
    Option CachedResult × Cache :=
  match dictGet cache key with
  | none => (none, cache)
  | some c =>
    if c.expires_at < now then (none, dictErase cache key) else (some c, cache)

/-- `set_cached`: unconditional overwrite. -/
def set_cached (cache : Cache) (key : String) (result : CachedResult) : Cache :=
  dictInsert cache key result

/-! ### The fingerprint `generate_cache_key`

`json.dumps(payload, sort_keys=True)` is embedded faithfully for the payload
shape used (an object with the two keys `market_id` and `outcome_names`, in
that sorted order, with default separators and `ensure_ascii=True` string
escaping), followed by SHA-256 and truncation of the hex digest to 16
characters. -/

/-- Lowercase hexadecimal digit (for `n < 16`). -/
def hexDig (n : Nat) : Char :=
  if n < 10 then Char.ofNat (48 + n) else Char.ofNat (87 + n)

/-- Four-digit lowercase hex of `n % 0x10000` (Python `"\\u%04x"`). -/
def hex4 (n : Nat) : List Char :=
  [hexDig (n / 4096 % 16), hexDig (n / 256 % 16), hexDig (n / 16 % 16),
    hexDig (n % 16)]

/-- CPython's `ensure_ascii` JSON string escaping of one character: the seven
short escapes, `\uXXXX` for other control characters and for all non-ASCII
characters (as a surrogate pair beyond the BMP), identity on printable
ASCII. -/
def escapeChar (c : Char) : List Char :=
  if c = '"' then ['\\', '"']
  else if c = '\\' then ['\\', '\\']
  else if c = '\x08' then ['\\', 'b']
  else if c = '\x0c' then ['\\', 'f']
  else if c = '\n' then ['\\', 'n']
  else if c = '\r' then ['\\', 'r']
  else if c = '\t' then ['\\', 't']
  else if c.toNat < 0x20 then '\\' :: 'u' :: hex4 c.toNat
  else if c.toNat ≤ 0x7e then [c]
  else if c.toNat < 0x10000 then '\\' :: 'u' :: hex4 c.toNat
  else
    ('\\' :: 'u' :: hex4 (0xd800 + (c.toNat - 0x10000) / 0x400)) ++
      ('\\' :: 'u' :: hex4 (0xdc00 + (c.toNat - 0x10000) % 0x400))

/-- JSON escaping of a whole string body. -/
def escStr (l : List Char) : List Char := (l.map escapeChar).flatten

/-- A JSON string literal: quote, escaped body, quote. -/
def jsonStr (l : List Char) : List Char := '"' :: (escStr l ++ ['"'])

/-- The `", "`-separated joining of serialized list elements (the JSON
array item separator). -/
def commaJoin : List (List Char) → List Char
  | [] => []
  | [x] => x
  | x :: xs => x ++ ',' :: ' ' :: commaJoin xs

/-- The serialized payload `json.dumps({"market_id": mid, "outcome_names":
names}, sort_keys=True)` (keys already in sorted order), on character
lists. -/
def rawPayloadL (mid : List Char) (names : List (List Char)) : List Char :=
  "\x7b\"market_id\": ".data ++ jsonStr mid ++
    ", \"outcome_names\": [".data ++
    commaJoin (names.map jsonStr) ++
    "]\x7d".data

/-- The serialized payload on strings. -/
def rawPayload (market_id : String) (names : List String) : List Char :=
  rawPayloadL market_id.data (names.map (·.data))

/-- `sorted([o.name.strip().lower() for o in request.outcomes])`. -/
def sorted_outcome_names (r : AnalyzeRequest) : List String :=
  (r.outcomes.map (fun o => pyLower (pyStrip o.name))).mergeSort
    (fun a b => decide (a ≤ b))

/-- UTF-8 encoding of one character (`str.encode()`). -/
def utf8Char (c : Char) : List Nat :=
  let n := c.toNat
  if n < 0x80 then [n]
  else if n < 0x800 then [0xc0 + n / 64, 0x80 + n % 64]
  else if n < 0x10000 then
    [0xe0 + n / 4096, 0x80 + n / 64 % 64, 0x80 + n % 64]
  else
    [0xf0 + n / 0x40000, 0x80 + n / 4096 % 64, 0x80 + n / 64 % 64,
      0x80 + n % 64]

/-- UTF-8 encoding of a string as a byte list. -/
def utf8 (l : List Char) : List Nat := (l.map utf8Char).flatten

/-- Truncation to a 32-bit word. -/
def w32 (n : Nat) : Nat := n % 4294967296

/-- 32-bit right rotation. -/
def rotr (n x : Nat) : Nat := w32 ((x >>> n) ||| (x <<< (32 - n)))

/-- Big-endian byte serialization of `n` on `k` bytes. -/
def bytesBE (k n : Nat) : List Nat :=
  (List.range k).map (fun i => n / 256 ^ (k - 1 - i) % 256)

/-- The SHA-256 round constants. -/
def shaK : List Nat :=
  [1116352408, 1899447441, 3049323471, 3921009573, 961987163, 1508970993,
   2453635748, 2870763221, 3624381080, 310598401, 607225278, 1426881987,
   1925078388, 2162078206, 2614888103, 3248222580, 3835390401, 4022224774,
   264347078, 604807628, 770255983, 1249150122, 1555081692, 1996064986,
   2554220882, 2821834349, 2952996808, 3210313671, 3336571891, 3584528711,
   113926993, 338241895, 666307205, 773529912, 1294757372, 1396182291,
   1695183700, 1986661051, 2177026350, 2456956037, 2730485921, 2820302411,
   3259730800, 3345764771, 3516065817, 3600352804, 4094571909, 275423344,
   430227734, 506948616, 659060556, 883997877, 958139571, 1322822218,
   1537002063, 1747873779, 1955562222, 2024104815, 2227730452, 2361852424,
   2428436474, 2756734187, 3204031479, 3329325298]

/-- The SHA-256 working state (eight 32-bit words). -/
structure ShaState where
  a : Nat
  b : Nat
  c : Nat
  d : Nat
  e : Nat
  f : Nat
  g : Nat
  h : Nat

/-- The SHA-256 initial hash value. -/
def shaInit : ShaState :=
  ⟨1779033703, 3144134277, 1013904242, 2773480762, 1359893119, 2600822924,
   528734635, 1541459225⟩

/-- SHA-256 message padding: `0x80`, zeros, 64-bit big-endian bit length. -/
def shaPad (msg : List Nat) : List Nat :=
  msg ++ [0x80] ++ List.replicate ((119 - msg.length % 64) % 64) 0 ++
    bytesBE 8 (8 * msg.length)

/-- Parse a 64-byte block into sixteen big-endian 32-bit words. -/
def wordsOf (block : List Nat) : List Nat :=
  (List.range 16).map (fun i =>
    block.getD (4 * i) 0 * 16777216 + block.getD (4 * i + 1) 0 * 65536 +
      block.getD (4 * i + 2) 0 * 256 + block.getD (4 * i + 3) 0)

/-- Extend sixteen schedule words to sixty-four. -/
def msgSchedule (w : List Nat) : List Nat :=
  (List.range 48).foldl
    (fun acc _ =>
      let s0 :=
        rotr 7 (acc.getD (acc.length - 15) 0) ^^^
          rotr 18 (acc.getD (acc.length - 15) 0) ^^^
          (acc.getD (acc.length - 15) 0) >>> 3
      let s1 :=
        rotr 17 (acc.getD (acc.length - 2) 0) ^^^
          rotr 19 (acc.getD (acc.length - 2) 0) ^^^
          (acc.getD (acc.length - 2) 0) >>> 10
      acc ++
        [w32 (acc.getD (acc.length - 16) 0 + s0 +
          acc.getD (acc.length - 7) 0 + s1)])
    w

/-- One SHA-256 compression round. -/
def shaRound (s : ShaState) (wk : Nat × Nat) : ShaState :=
  let S1 := rotr 6 s.e ^^^ rotr 11 s.e ^^^ rotr 25 s.e
  let ch := (s.e &&& s.f) ^^^ ((4294967295 ^^^ s.e) &&& s.g)
  let t1 := w32 (s.h + S1 + ch + wk.2 + wk.1)
  let S0 := rotr 2 s.a ^^^ rotr 13 s.a ^^^ rotr 22 s.a
  let mj := (s.a &&& s.b) ^^^ (s.a &&& s.c) ^^^ (s.b &&& s.c)
  let t2 := w32 (S0 + mj)
  ⟨w32 (t1 + t2), s.a, s.b, s.c, w32 (s.d + t1), s.e, s.f, s.g⟩

/-- Compress one 64-byte block into the running state. -/
def shaBlock (st : ShaState) (block : List Nat) : ShaState :=
  let f := ((msgSchedule (wordsOf block)).zip shaK).foldl shaRound st
  ⟨w32 (st.a + f.a), w32 (st.b + f.b), w32 (st.c + f.c), w32 (st.d + f.d),
   w32 (st.e + f.e), w32 (st.f + f.f), w32 (st.g + f.g), w32 (st.h + f.h)⟩

/-- Split a byte list into 64-byte chunks. -/
def chunks64 (l : List Nat) : List (List Nat) :=
  if l.isEmpty then [] else l.take 64 :: chunks64 (l.drop 64)
termination_by l.length
decreasing_by
  cases l with
  | nil => simp_all
  | cons x xs => simp [List.length_drop]; omega

/-- SHA-256 digest (32 bytes) of a byte string. -/
def sha256bytes (msg : List Nat) : List Nat :=
  let s := (chunks64 (shaPad msg)).foldl shaBlock shaInit
  bytesBE 4 s.a ++ bytesBE 4 s.b ++ bytesBE 4 s.c ++ bytesBE 4 s.d ++
    bytesBE 4 s.e ++ bytesBE 4 s.f ++ bytesBE 4 s.g ++ bytesBE 4 s.h

/-- Lowercase hex rendering of a byte list (`hexdigest()`). -/
def hexOfBytes (bs : List Nat) : List Char :=
  (bs.map (fun b => [hexDig (b / 16), hexDig (b % 16)])).flatten

/-- `generate_cache_key`: sha256 hex digest of the serialized payload,
truncated to 16 characters. -/
def generate_cache_key (r : AnalyzeRequest) : String :=
  ⟨(hexOfBytes (sha256bytes (utf8
    (rawPayload (pyOrStr r.market_id r.market_title)
      (sorted_outcome_names r))))).take 16⟩

/-! ### The orchestrator `run_parallel_analysis_stream`

The three jobs run concurrently and push items onto a single
`asyncio.Queue`; the orchestrator drains that queue.  A job's execution is
modelled by the observable outcome of its external calls (one constructor
per control-flow path through the job body); the job body then determines
the exact sequence of queue items the job enqueues.  A concrete run of the
orchestrator is any interleaving (`IsMerge`) of the three per-job sequences,
which is exactly the guarantee of the FIFO multi-producer queue: per-job
order is preserved, cross-job order is arbitrary. -/

/-- Queue event payloads (the dicts pushed by jobs, tagged by `"type"`). -/
inductive Ev : Type
  | log (msg : String)
  | tool_call (tool args : String)
  | thinking (tokens : Nat)
  | citations (urls : List String)
  | status (msg : String)
  | content
  | complete_hist (sentiment : String) (probability : ℚ) (confidence : String)
  | complete_x (sentiment : String) (alpha_count signal_count num_figures : Nat)
  | error (err : String)
deriving DecidableEq

/-- The `TaskComplete` sentinel's `result` payload (per-job result types). -/
inductive JobResult : Type
  | fr (r : Option FoundationalDict)
  | hr (r : Option HistoricalDict)
  | xr (r : Option XResult)
deriving DecidableEq

/-- One item on the shared event queue: a `(source, event)` pair or a
`TaskComplete(task_name, result)` sentinel. -/
inductive QItem : Type
  | ev (source : String) (e : Ev)
  | complete (task : String) (r : JobResult)
deriving DecidableEq

/-- One server-sent event of the output stream (timing payload fields
omitted; the two pre-loop status yields get their own constructors). -/
inductive SSE : Type
  | status_init
  | status_parallel_start
  | log (source msg : String)
  | tool_call (source tool args : String)
  | thinking (source : String) (tokens : Nat)
  | citations (source : String) (urls : List String)
  | status (source msg : String)
  | task_complete (task : String)
  | historical_complete (sentiment : String) (probability : ℚ)
      (confidence : String)
  | x_sentiment_complete (sentiment : String) (alpha_count signal_count : Nat)
  | outcome_estimates (estimates : List OutcomeEstimate)
  | error (source err : String)
  | result (r : CachedResult)
  | cancelled
  | done
deriving DecidableEq

/-- Python `s[:n]`. -/
def pyTake (n : Nat) (s : String) : String := ⟨s.data.take n⟩

/-- The orchestrator's event-relay dispatch (`if event_type == ...` chain):
each queue event becomes at most one SSE event; event types without a branch
(such as `content`) are dropped; `citations` is dropped when empty; the
`complete` branch further dispatches on the source job (jobs only ever pair
`complete_hist` with source `"historical"` and `complete_x` with
`"x_sentiment"`, so the other pairings are unreachable and relay nothing). -/
def relay (source : String) (e : Ev) : List SSE :=
  match e with
  | .log m => [.log source m]
  | .tool_call t a => [.tool_call source t (pyTake 200 a)]
  | .thinking n => [.thinking source n]
  | .citations urls =>
    if urls.isEmpty then [] else [.citations source (urls.take 10)]
  | .status m => [.status source m]
  | .content => []
  | .complete_hist s p c =>
    if source = "historical" then [.historical_complete s p c] else []
  | .complete_x s a t _ =>
    if source = "x_sentiment" then [.x_sentiment_complete s a t] else []
  | .error m => [.error source m]

/-! #### The foundational job (`run_foundational_in_thread`) -/

/-- Outcome of the JSON-extraction block run on one `content` event of the
agentic search: a parsed result dict, a parse exception (which appends an
error event), or no JSON object found. -/
inductive ContentParse : Type
  | parsed (d : FoundationalDict)
  | parseError (msg : String)
  | noJson
deriving DecidableEq

/-- One event yielded by the external `_run_agentic_search` generator. -/
inductive GenEvent : Type
  | log (msg : String)
  | tool_call (tool args : String)
  | thinking (tokens : Nat)
  | citations (urls : List String)
  | status (msg : String)
  | content (p : ContentParse)
  | error (msg : String)
deriving DecidableEq

/-- The raw queue event corresponding to a generator event (every generator
event is appended to `events` as-is). -/
def genEv : GenEvent → Ev
  | .log m => .log m
  | .tool_call t a => .tool_call t a
  | .thinking n => .thinking n
  | .citations u => .citations u
  | .status m => .status m
  | .content _ => .content
  | .error m => .error m

/-- The accumulation loop of `sync_foundational`: every event is recorded; a
successfully parsed `content` event overwrites `result_data`; a parse
exception additionally records an error event. -/
def procGen (evs : List GenEvent) : List Ev × Option FoundationalDict :=
  evs.foldl
    (fun acc ge =>
      match ge with
      | .content p =>
        match p with
        | .parsed d => (acc.1 ++ [genEv ge], some d)
        | .parseError m => (acc.1 ++ [genEv ge, .error m], acc.2)
        | .noJson => (acc.1 ++ [genEv ge], acc.2)
      | _ => (acc.1 ++ [genEv ge], acc.2))
    ([], none)

/-- Execution paths of the foundational job: the generator yields `evs` and
then either finishes or raises (the exception is caught inside
`sync_foundational`, which keeps the events and any already-parsed result);
or the executor call times out / raises, losing all events. -/
inductive FoundRun : Type
  | run (evs : List GenEvent) (raised : Option String)
  | timeout (msg : String)
  | execExc (msg : String)
deriving DecidableEq

/-- `sync_foundational`'s `(events, result_data)` pair for each path. -/
def sync_foundational : FoundRun → List Ev × Option FoundationalDict
  | .run evs raised =>
    let p := procGen evs
    (match raised with
     | none => p.1
     | some m => p.1 ++ [.error m], p.2)
  | .timeout m => ([.error m], none)
  | .execExc m => ([.error m], none)

/-- The foundational job's terminal result (`results["foundational"]`). -/
def foundResult (frn : FoundRun) : Option FoundationalDict :=
  (sync_foundational frn).2

/-- The queue items enqueued by `run_foundational_in_thread`: all collected
events, then exactly one `TaskComplete`. -/
def run_foundational_in_thread (frn : FoundRun) : List QItem :=
  (sync_foundational frn).1.map (QItem.ev "foundational") ++
    [QItem.complete "foundational" (.fr (foundResult frn))]

/-! #### The historical job (`run_historical`) -/

/-- The fields of `HistoricalAnalysisResponse` that the job reads (sentiment
and confidence already projected to their string values). -/
structure HistoricalResponse where
  overall_sentiment : String
  probability_estimate : ℚ
  overall_confidence : String
  recommendation : String
deriving DecidableEq

/-- `result.model_dump()`, restricted to the keys the synthesizer reads. -/
def dumpHist (r : HistoricalResponse) : HistoricalDict :=
  ⟨some r.probability_estimate, some r.overall_sentiment,
    some r.recommendation⟩

/-- Execution paths of the historical job: `research_event` returns a
response (after which leaving the client context may still raise, caught by
the same handler), or the body raises. -/
inductive HistRun : Type
  | ok (r : HistoricalResponse) (exitErr : Option String)
  | exc (msg : String)
deriving DecidableEq

/-- The historical job's terminal result (`results["historical"]`). -/
def histResult : HistRun → Option HistoricalDict
  | .ok r _ => some (dumpHist r)
  | .exc _ => none

/-- The queue items enqueued by `run_historical`: the initial status event,
then the path-dependent events, then exactly one `TaskComplete`. -/
def run_historical (hrn : HistRun) : List QItem :=
  QItem.ev "historical" (.status "Starting historical research...") ::
    (match hrn with
     | .ok r exitErr =>
       QItem.ev "historical"
           (.complete_hist r.overall_sentiment r.probability_estimate
             r.overall_confidence) ::
         (match exitErr with
          | none => []
          | some m => [QItem.ev "historical" (.error m)])
     | .exc m => [QItem.ev "historical" (.error m)]) ++
    [QItem.complete "historical" (.hr (histResult hrn))]

/-! #### The prominent-figures job (`run_prominent_figures`) -/

/-- Execution paths of the prominent-figures job, one per control-flow path
of the body: exception while generating figures; zero figures (early
return); exception while fetching tweets; zero tweets (early return);
exception while analyzing tweets; full success. -/
inductive XRun : Type
  | excGen (msg : String)
  | zeroFigures (fd : FiguresData)
  | excFetch (fd : FiguresData) (msg : String)
  | zeroTweets (fd : FiguresData)
  | excAnalyze (fd : FiguresData) (total : Nat) (msg : String)
  | ok (fd : FiguresData) (total : Nat) (resp : XResponse)
deriving DecidableEq

/-- The literal `{"summary": {"total_tweets_analyzed": 0, "alpha_count": 0}}`
stored on the zero-tweets path. -/
def emptyAnalysis : XResponse := ⟨some ⟨none, some 0, some 0⟩⟩

/-- The prominent-figures job's terminal result
(`results.get("prominent_figures")`). -/
def xResult : XRun → Option XResult
  | .excGen _ => none
  | .zeroFigures fd => some ⟨none, fd⟩
  | .excFetch _ _ => none
  | .zeroTweets fd => some ⟨some emptyAnalysis, fd⟩
  | .excAnalyze _ _ _ => none
  | .ok fd _ resp => some ⟨some resp, fd⟩

/-- Status message `f"✅ Identified {num_figures} experts"`. -/
def stIdentified (n : Nat) : Ev :=
  .status ("✅ Identified " ++ toString n ++ " experts")

/-- Status message `f"📡 Fetching tweets from {num_figures} experts..."`. -/
def stFetching (n : Nat) : Ev :=
  .status ("📡 Fetching tweets from " ++ toString n ++ " experts...")

/-- Status message `f"📊 Fetched {total_tweets} tweets, analyzing..."`. -/
def stFetched (t : Nat) : Ev :=
  .status ("📊 Fetched " ++ toString t ++ " tweets, analyzing...")

/-- The queue items enqueued by `run_prominent_figures`: the path-dependent
progress events, then exactly one `TaskComplete` (the early-return paths
enqueue it before returning; all other paths reach the final enqueue after
the `finally` block). -/
def run_prominent_figures (xrn : XRun) : List QItem :=
  QItem.ev "x_sentiment"
      (.status "🔍 Identifying prominent figures with Grok...") ::
    (match xrn with
     | .excGen m => [QItem.ev "x_sentiment" (.error m)]
     | .zeroFigures fd =>
       [QItem.ev "x_sentiment" (stIdentified fd.figures.length),
        QItem.ev "x_sentiment" (.status "No experts found, skipping...")]
     | .excFetch fd m =>
       [QItem.ev "x_sentiment" (stIdentified fd.figures.length),
        QItem.ev "x_sentiment" (stFetching fd.figures.length),
        QItem.ev "x_sentiment" (.error m)]
     | .zeroTweets fd =>
       [QItem.ev "x_sentiment" (stIdentified fd.figures.length),
        QItem.ev "x_sentiment" (stFetching fd.figures.length),
        QItem.ev "x_sentiment" (stFetched 0),
        QItem.ev "x_sentiment" (.complete_x "unknown" 0 0 fd.figures.length)]
     | .excAnalyze fd t m =>
       [QItem.ev "x_sentiment" (stIdentified fd.figures.length),
        QItem.ev "x_sentiment" (stFetching fd.figures.length),
        QItem.ev "x_sentiment" (stFetched t),
        QItem.ev "x_sentiment" (.error m)]
     | .ok fd t resp =>
       let summary := resp.summary.getD ⟨none, none, none⟩
       [QItem.ev "x_sentiment" (stIdentified fd.figures.length),
        QItem.ev "x_sentiment" (stFetching fd.figures.length),
        QItem.ev "x_sentiment" (stFetched t),
        QItem.ev "x_sentiment"
          (.complete_x (summary.sentiment_trend.getD "unknown")
            (summary.alpha_count.getD 0)
            (summary.total_tweets_analyzed.getD 0) fd.figures.length)]) ++
    [QItem.complete "x_sentiment" (.xr (xResult xrn))]

/-! #### Queue interleaving and the draining loop -/

/-- `IsMerge a b c m`: `m` is an interleaving of the three sequences
`a`, `b`, `c` that preserves each sequence's internal order — the arrival
order guarantee of the shared FIFO queue. -/
inductive IsMerge :
    List QItem → List QItem → List QItem → List QItem → Prop
  | nil : IsMerge [] [] [] []
  | cons₁ (x : QItem) {a b c m : List QItem} :
      IsMerge a b c m → IsMerge (x :: a) b c (x :: m)
  | cons₂ (x : QItem) {a b c m : List QItem} :
      IsMerge a b c m → IsMerge a (x :: b) c (x :: m)
  | cons₃ (x : QItem) {a b c m : List QItem} :
      IsMerge a b c m → IsMerge a b (x :: c) (x :: m)

/-- The client-disconnect oracle: `is_disconnected()` first returns true at
the check preceding the `k`-th dequeued item (`none`: the consumer stays
attached).  Disconnection is monotone, matching a real disconnect. -/
def discAt (disc : Option Nat) (i : Nat) : Bool :=
  match disc with
  | none => false
  | some k => decide (k ≤ i)

/-- The observable state of the draining loop when it stops. -/
structure DrainOut where
  out : List SSE
  cancelled : Bool
  cancelSignalled : List String
  starved : Bool
  fc : Bool
  hc : Bool
  xc : Bool
  resF : Option FoundationalDict
  resH : Option HistoricalDict
  resX : Option XResult
deriving DecidableEq

/-- The draining loop (`while not all(tasks_complete.values())`): the
all-complete condition is checked first; then the disconnect check (on
disconnect: cancel every task whose completion marker has not been observed,
emit one `cancelled` event, stop); then the next queue item is processed —
a `TaskComplete` marks its job complete (its result payload is the value the
job stored in `results` just before enqueueing the marker) and emits a
`task_complete` event, any other event is relayed.  An exhausted item list
with jobs outstanding (`starved`) models the real loop blocking forever on
its queue, which cannot happen for a full run of the three jobs. -/
def drainLoop (disc : Option Nat) (i : Nat) (fc hc xc : Bool)
    (resF : Option FoundationalDict) (resH : Option HistoricalDict)
    (resX : Option XResult) (items : List QItem) : DrainOut :=
  if fc && hc && xc then
    ⟨[], false, [], false, fc, hc, xc, resF, resH, resX⟩
  else if discAt disc i then
    ⟨[.cancelled], true,
      (if fc then [] else ["foundational"]) ++
        (if hc then [] else ["historical"]) ++
        (if xc then [] else ["x_sentiment"]),
      false, fc, hc, xc, resF, resH, resX⟩
  else
    match items with
    | [] => ⟨[], false, [], true, fc, hc, xc, resF, resH, resX⟩
    | .complete name r :: rest =>
      let fc' := fc || name == "foundational"
      let hc' := hc || name == "historical"
      let xc' := xc || name == "x_sentiment"
      let resF' := match r with | .fr v => v | _ => resF
      let resH' := match r with | .hr v => v | _ => resH
      let resX' := match r with | .xr v => v | _ => resX
      let d := drainLoop disc (i + 1) fc' hc' xc' resF' resH' resX' rest
      { d with out := .task_complete name :: d.out }
    | .ev src e :: rest =>
      let d := drainLoop disc (i + 1) fc hc xc resF resH resX rest
      { d with out := relay src e ++ d.out }

/-- The observable outcome of one orchestrated request: the SSE stream, the
cache after the request, and which jobs were sent a cancel signal. -/
structure StreamResult where
  output : List SSE
  cache : Cache
  cancelSignalled : List String
deriving DecidableEq

/-- `run_parallel_analysis_stream`: the two initial status yields, the
draining loop over the queue-arrival order `items`, and — unless the client
disconnected — the synthesizer call, the optional `outcome_estimates` event,
the cache write and the final `result` + `done` events. -/
def run_parallel_analysis_stream (req : AnalyzeRequest) (cache_key : String)
    (cache : Cache) (now : ℚ) (items : List QItem) (disc : Option Nat) :
    StreamResult :=
  let d := drainLoop disc 0 false false false none none none items
  let init : List SSE := [.status_init, .status_parallel_start]
  if d.cancelled then ⟨init ++ d.out, cache, d.cancelSignalled⟩
  else if d.starved then ⟨init ++ d.out, cache, []⟩
  else
    let ests := generate_outcome_estimates req.outcomes d.resF d.resH
    let cr : CachedResult :=
      { cache_key := cache_key
        created_at := now
        expires_at := now + CACHE_TTL_MINUTES
        market_title := req.market_title
        foundational_data := d.resF
        historical_analysis := d.resH
        prominent_figures_analysis := d.resX
        outcome_estimates := some ests }
    ⟨init ++ d.out ++
        (if ests.isEmpty then [] else [.outcome_estimates ests]) ++
        [.result cr, .done],
      set_cached cache cache_key cr, []⟩

/-! ### A decoder for the serialized payload

The fingerprint-sensitivity analysis needs that two different payloads
serialize to different strings.  This is proved constructively: a decoder
inverts the serialization, so the serialization is injective. -/

/-- Hex digit value of a character. -/
def unhex (c : Char) : Option Nat :=
  if '0' ≤ c ∧ c ≤ '9' then some (c.toNat - 48)
  else if 'a' ≤ c ∧ c ≤ 'f' then some (c.toNat - 87)
  else none

/-- Value of four hex digits. -/
def unhex4 (a b c d : Char) : Option Nat :=
  match unhex a, unhex b, unhex c, unhex d with
  | some x, some y, some z, some w => some (4096 * x + 256 * y + 16 * z + w)
  | _, _, _, _ => none

/-- Decode one escaped character at the head of an encoded string body
(`none` on the closing quote or on malformed input): literals, the seven
short escapes, `\uXXXX` and surrogate pairs. -/
def decEsc : List Char → Option (Char × List Char)
  | [] => none
  | c :: rest =>
    if c = '"' then none
    else if c = '\\' then
      match rest with
      | [] => none
      | e :: rest2 =>
        if e = 'u' then
          match rest2 with
          | h1 :: h2 :: h3 :: h4 :: rest3 =>
            match unhex4 h1 h2 h3 h4 with
            | none => none
            | some v =>
              if 55296 ≤ v ∧ v < 56320 then
                match rest3 with
                | s1 :: s2 :: g1 :: g2 :: g3 :: g4 :: rest4 =>
                  if s1 = '\\' ∧ s2 = 'u' then
                    match unhex4 g1 g2 g3 g4 with
                    | none => none
                    | some w =>
                      if 56320 ≤ w ∧ w < 57344 then
                        some (Char.ofNat
                          (65536 + (v - 55296) * 1024 + (w - 56320)), rest4)
                      else none
                  else none
                | _ => none
              else if 56320 ≤ v ∧ v < 57344 then none
              else some (Char.ofNat v, rest3)
          | _ => none
        else if e = '"' then some ('"', rest2)
        else if e = '\\' then some ('\\', rest2)
        else if e = 'b' then some ('\x08', rest2)
        else if e = 'f' then some ('\x0c', rest2)
        else if e = 'n' then some ('\n', rest2)
        else if e = 'r' then some ('\r', rest2)
        else if e = 't' then some ('\t', rest2)
        else none
    else some (c, rest)

/-- Decode an encoded string body up to its closing quote (fuel-indexed). -/
def decBody : Nat → List Char → Option (List Char × List Char)
  | _, [] => none
  | fuel, c :: rest =>
    if c = '"' then some ([], rest)
    else
      match fuel with
      | 0 => none
      | f + 1 =>
        match decEsc (c :: rest) with
        | none => none
        | some (ch, r1) =>
          match decBody f r1 with
          | none => none
          | some (s, r2) => some (ch :: s, r2)

/-- Strip an expected literal from the head of the input. -/
def stripLit : List Char → List Char → Option (List Char)
  | [], l => some l
  | _ :: _, [] => none
  | p :: ps, c :: cs => if c = p then stripLit ps cs else none

/-- Decode a nonempty `", "`-separated list of string literals terminated by
`]}` (fuel-indexed). -/
def decItems : Nat → List Char → Option (List (List Char))
  | 0, _ => none
  | fuel + 1, l =>
    match l with
    | '"' :: rest =>
      match decBody rest.length rest with
      | none => none
      | some (s, r) =>
        if r = [']', '\x7d'] then some [s]
        else
          match r with
          | ',' :: ' ' :: r2 =>
            match decItems fuel r2 with
            | none => none
            | some ss => some (s :: ss)
          | _ => none
    | _ => none

/-- Decode a serialized payload back into the market id and the outcome-name
list. -/
def decodePayload (l : List Char) : Option (List Char × List (List Char)) :=
  match stripLit "\x7b\"market_id\": \"".data l with
  | none => none
  | some r1 =>
    match decBody r1.length r1 with
    | none => none
    | some (mid, r2) =>
      match stripLit ", \"outcome_names\": [".data r2 with
      | none => none
      | some r3 =>
        if r3 = [']', '\x7d'] then some (mid, [])
        else
          match decItems r3.length r3 with
          | none => none
          | some ns => some (mid, ns)

/-! ### Vocabulary for the orchestrator properties -/

/-- The three job names, in launch order. -/
def jobNames : List String := ["foundational", "historical", "x_sentiment"]

/-- Whether an execution path of the named job raises an exception inside
the job body (caught at the job's boundary). -/
def jobRaises (j : String) (frn : FoundRun) (hrn : HistRun) (xrn : XRun) :
    Prop :=
  if j = "foundational" then
    match frn with
    | .run _ (some _) => True
    | .timeout _ => True
    | .execExc _ => True
    | .run _ none => False
  else if j = "historical" then
    match hrn with
    | .exc _ => True
    | .ok _ (some _) => True
    | .ok _ none => False
  else if j = "x_sentiment" then
    match xrn with
    | .excGen _ => True
    | .excFetch _ _ => True
    | .excAnalyze _ _ _ => True
    | _ => False
  else False

/-- The named job's terminal result slot inside a combined result. -/
def slotIsNull (cr : CachedResult) (j : String) : Prop :=
  if j = "foundational" then cr.foundational_data = none
  else if j = "historical" then cr.historical_analysis = none
  else cr.prominent_figures_analysis = none

/-- All `result`-event payloads of an output stream. -/
def resultEvents (out : List SSE) : List CachedResult :=
  out.filterMap (fun e => match e with | .result r => some r | _ => none)

/-- A queue item that is a progress event (not a completion marker). -/
def isEv : QItem → Bool
  | .ev _ _ => true
  | .complete _ _ => false

/-- The SSE events the draining loop emits for one queue item. -/
def relayItem : QItem → List SSE
  | .ev src e => relay src e
  | .complete name _ => [SSE.task_complete name]

/-- The SSE events the draining loop emits for a queue-item list. -/
def relayAll (items : List QItem) : List SSE := (items.map relayItem).flatten

/-- Whether a list contains a completion marker of the named job. -/
def hasMarker (name : String) (l : List QItem) : Bool :=
  l.any (fun it =>
    match it with
    | .complete n _ => n == name
    | .ev _ _ => false)

/-- Loop invariant tying a job's remaining queue-item suffix to its
completion flag: a completed job has nothing left; an uncompleted job still
ends with its unique completion marker, preceded only by progress events. -/
def goodTail (name : String) (res : JobResult) (l : List QItem)
    (flag : Bool) : Prop :=
  (flag = true ∧ l = []) ∨
    (flag = false ∧ ∃ l', l = l' ++ [QItem.complete name res] ∧
      ∀ it ∈ l', isEv it = true)

/-! ### Helper lemmas: synthesizer -/

/-- Membership in the synthesizer output is membership in the per-outcome
map. -/
theorem mem_generate_outcome_estimates {outcomes : List OutcomeData}
    {fd : Option FoundationalDict} {hist : Option HistoricalDict}
    {e : OutcomeEstimate} :
    e ∈ generate_outcome_estimates outcomes fd hist ↔
      ∃ o ∈ outcomes, mkEstimate outcomes fd hist o = e := by
  unfold generate_outcome_estimates
  rw [List.mem_mergeSort, List.mem_map]

/-- The BUY/SELL/HOLD threshold policy as an if-chain over the delta. -/
theorem rec_iff (d : ℚ) :
    ((if d > 5 then "BUY" else if d < -5 then "SELL" else "HOLD") = "BUY" ↔
        5 < d) ∧
      ((if d > 5 then "BUY" else if d < -5 then "SELL" else "HOLD") = "SELL" ↔
        d < -5) ∧
      ((if d > 5 then "BUY" else if d < -5 then "SELL" else "HOLD") = "HOLD" ↔
        -5 ≤ d ∧ d ≤ 5) := by
  split_ifs with h1 h2
  · refine ⟨by simpa using h1, by simp; linarith, by simp; intros; linarith⟩
  · refine ⟨by simp; linarith, by simpa using h2, by simp; intros; linarith⟩
  · refine ⟨by simp; linarith, by simp; linarith, ?_⟩
    simp only [true_iff]
    exact ⟨by linarith, by linarith⟩

/-- The delta and recommendation fields of `mkEstimate`. -/
theorem mkEstimate_fields (outcomes : List OutcomeData)
    (fd : Option FoundationalDict) (hist : Option HistoricalDict)
    (o : OutcomeData) :
    (mkEstimate outcomes fd hist o).outcome_name = o.name ∧
      (mkEstimate outcomes fd hist o).grok_probability =
        round1 (grok_prob_for outcomes fd hist o) ∧
      (mkEstimate outcomes fd hist o).market_probability =
        round1 (market_prob o) ∧
      (mkEstimate outcomes fd hist o).delta =
        round1 (grok_prob_for outcomes fd hist o - market_prob o) ∧
      (mkEstimate outcomes fd hist o).recommendation =
        (if (mkEstimate outcomes fd hist o).delta > 5 then "BUY"
          else if (mkEstimate outcomes fd hist o).delta < -5 then "SELL"
          else "HOLD") := by
  refine ⟨rfl, rfl, rfl, rfl, rfl⟩

/-! ### Claim C9 -/

/-- C9: for every input, the list of per-outcome estimates returned by
`generate_outcome_estimates` is sorted by descending absolute delta (largest
mispricing first). -/
theorem C9_sorted_by_descending_abs_delta (outcomes : List OutcomeData)
    (fd : Option FoundationalDict) (hist : Option HistoricalDict) :
    (generate_outcome_estimates outcomes fd hist).Pairwise
      (fun a b => |b.delta| ≤ |a.delta|) := by
  have h := @List.sorted_mergeSort _
    (fun a b : OutcomeEstimate => decide (|b.delta| ≤ |a.delta|))
    (fun a b c hab hbc => by
      simp only [decide_eq_true_eq] at *
      exact le_trans hbc hab)
    (fun a b => by
      simp only [Bool.or_eq_true, decide_eq_true_eq]
      exact le_total _ _)
    (outcomes.map (mkEstimate outcomes fd hist))
  refine List.Pairwise.imp ?_ h
  intro a b hab
  simpa using hab

/-! ### Claim C7 -/

/-- C7: for a request with exactly the two outcomes `"Yes"` and `"No"`, when
the foundational result supplies no odds entry matching either outcome and
the historical overall probability estimate is 70, the synthesizer estimates
`"Yes"` at 70 and `"No"` at 100 − 70 = 30. -/
theorem C7_binary_yes_no (o1 o2 : OutcomeData) (fd : Option FoundationalDict)
    (hist : HistoricalDict) (h1 : o1.name = "Yes") (h2 : o2.name = "No")
    (hf1 : foundational_grok fd "yes" = none)
    (hf2 : foundational_grok fd "no" = none)
    (hp : hist.probability_estimate = some 70) :
    ((generate_outcome_estimates [o1, o2] fd (some hist)).map
        (fun e => (e.outcome_name, e.grok_probability))).Perm
      [("Yes", (70 : ℚ)), ("No", (30 : ℚ))] := by
  have h12 : o1 ≠ o2 := by
    intro he
    rw [he, h2] at h1
    exact absurd h1 (by decide)
  have hn1 : pyStrip (pyLower o1.name) = "yes" := by rw [h1]; decide
  have hn2 : pyStrip (pyLower o2.name) = "no" := by rw [h2]; decide
  have grok1 : grok_prob_for [o1, o2] fd (some hist) o1 = 70 := by
    simp [grok_prob_for, hn1, hf1, overall_prob, hp]
  have hbeq : (o1 == o2) = false := beq_eq_false_iff_ne.mpr h12
  have grok2 : grok_prob_for [o1, o2] fd (some hist) o2 = 30 := by
    simp [grok_prob_for, hn2, hf2, overall_prob, hp, List.indexOf_cons, hbeq]
    norm_num
  have hperm := List.mergeSort_perm
    ([o1, o2].map (mkEstimate [o1, o2] fd (some hist)))
    (fun a b => decide (|b.delta| ≤ |a.delta|))
  have hmap : (([o1, o2].map (mkEstimate [o1, o2] fd (some hist))).map
      (fun e => (e.outcome_name, e.grok_probability))) =
      [("Yes", (70 : ℚ)), ("No", (30 : ℚ))] := by
    simp [mkEstimate, h1, h2, grok1, grok2]
    norm_num [round1]
  unfold generate_outcome_estimates
  exact (List.Perm.map _ hperm).trans (List.Perm.of_eq hmap)

/-! ### Claim C8 -/

/-- C8: in every output entry, the stored delta is the (one-decimal-rounded)
difference between that outcome's model estimate and its market-quoted
probability, and the recommendation is `"BUY"` exactly when delta > 5,
`"SELL"` exactly when delta < −5 and `"HOLD"` otherwise; concretely, market
probability 40 with model estimate 50 gives delta 10 and `"BUY"`, while
model estimate 42 gives delta 2 and `"HOLD"`. -/
theorem C8_delta_and_recommendation_policy :
    (∀ (outcomes : List OutcomeData) (fd : Option FoundationalDict)
        (hist : Option HistoricalDict) (e : OutcomeEstimate),
      e ∈ generate_outcome_estimates outcomes fd hist →
        ((e.recommendation = "BUY" ↔ 5 < e.delta) ∧
          (e.recommendation = "SELL" ↔ e.delta < -5) ∧
          (e.recommendation = "HOLD" ↔ -5 ≤ e.delta ∧ e.delta ≤ 5) ∧
          ∃ o ∈ outcomes,
            e.delta =
              round1 (grok_prob_for outcomes fd hist o - market_prob o) ∧
            e.grok_probability = round1 (grok_prob_for outcomes fd hist o) ∧
            e.market_probability = round1 (market_prob o))) ∧
    generate_outcome_estimates [⟨"A", some 40, none, none, none⟩] none
        (some ⟨some 50, none, none⟩) = [⟨"A", 50, 40, 10, "BUY"⟩] ∧
    generate_outcome_estimates [⟨"A", some 40, none, none, none⟩] none
        (some ⟨some 42, none, none⟩) = [⟨"A", 42, 40, 2, "HOLD"⟩] := by
  refine ⟨?_, ?_, ?_⟩
  · intro outcomes fd hist e he
    obtain ⟨o, ho, rfl⟩ := mem_generate_outcome_estimates.mp he
    obtain ⟨-, hg, hm, hd, hr⟩ := mkEstimate_fields outcomes fd hist o
    rw [hr]
    exact ⟨(rec_iff _).1, (rec_iff _).2.1, (rec_iff _).2.2, o, ho, hd, hg, hm⟩
  · simp only [generate_outcome_estimates, List.map, List.mergeSort_singleton]
    simp only [mkEstimate, grok_prob_for, market_prob, foundational_grok,
      foundational_odds, overall_prob, pyTruthy]
    norm_num [round1, pyStrip, pyLower, pyStripL]
  · simp only [generate_outcome_estimates, List.map, List.mergeSort_singleton]
    simp only [mkEstimate, grok_prob_for, market_prob, foundational_grok,
      foundational_odds, overall_prob, pyTruthy]
    norm_num [round1, pyStrip, pyLower, pyStripL]

/-- C8 witness: the policy instantiated on the concrete one-outcome market
with market probability 40 and model estimate 50. -/
theorem C8_delta_and_recommendation_policy_witness :
    (⟨"A", 50, 40, 10, "BUY"⟩ : OutcomeEstimate) ∈
        generate_outcome_estimates [⟨"A", some 40, none, none, none⟩] none
          (some ⟨some 50, none, none⟩) ∧
      ((⟨"A", 50, 40, 10, "BUY"⟩ : OutcomeEstimate).recommendation = "BUY" ↔
        5 < (⟨"A", 50, 40, 10, "BUY"⟩ : OutcomeEstimate).delta) := by
  have hmem : (⟨"A", 50, 40, 10, "BUY"⟩ : OutcomeEstimate) ∈
      generate_outcome_estimates [⟨"A", some 40, none, none, none⟩] none
        (some ⟨some 50, none, none⟩) := by
    rw [C8_delta_and_recommendation_policy.2.1]
    exact List.mem_singleton.mpr rfl
  exact ⟨hmem,
    (C8_delta_and_recommendation_policy.1 _ _ _ _ hmem).1⟩

/-! ### Claim C10 -/

/-- C10: an outcome whose quoted probability is `None` or 0 and whose
yes-price is `None` or 0 gets market probability 50; with no job data at
all such an outcome's entry has model estimate 50, delta 0 and the neutral
`"HOLD"` recommendation. -/
theorem C10_falsy_prices_default_to_50 :
    (∀ o : OutcomeData, (o.probability = none ∨ o.probability = some 0) →
        (o.yesPrice = none ∨ o.yesPrice = some 0) → market_prob o = 50) ∧
    (∀ (outcomes : List OutcomeData) (o : OutcomeData), o ∈ outcomes →
        (o.probability = none ∨ o.probability = some 0) →
        (o.yesPrice = none ∨ o.yesPrice = some 0) →
        ∃ e ∈ generate_outcome_estimates outcomes none none,
          e.outcome_name = o.name ∧ e.grok_probability = 50 ∧
          e.market_probability = 50 ∧ e.delta = 0 ∧
          e.recommendation = "HOLD") := by
  have hm : ∀ o : OutcomeData,
      (o.probability = none ∨ o.probability = some 0) →
      (o.yesPrice = none ∨ o.yesPrice = some 0) → market_prob o = 50 := by
    intro o hp hy
    rcases hp with hp | hp <;> rcases hy with hy | hy <;>
      simp [market_prob, pyTruthy, hp, hy]
  refine ⟨hm, ?_⟩
  intro outcomes o ho hp hy
  have hg : grok_prob_for outcomes none none o = market_prob o := by
    simp [grok_prob_for, foundational_grok, foundational_odds, overall_prob]
  refine ⟨mkEstimate outcomes none none o,
    mem_generate_outcome_estimates.mpr ⟨o, ho, rfl⟩, rfl, ?_, ?_, ?_, ?_⟩ <;>
    simp [mkEstimate, hg, hm o hp hy] <;> norm_num [round1]

/-- C10 witness: a concrete outcome with probability 0 and yes-price `None`
and no job data. -/
theorem C10_falsy_prices_default_to_50_witness :
    market_prob ⟨"Z", some 0, none, none, none⟩ = 50 ∧
      ∃ e ∈ generate_outcome_estimates [⟨"Z", some 0, none, none, none⟩]
          none none,
        e.outcome_name = "Z" ∧ e.grok_probability = 50 ∧
          e.market_probability = 50 ∧ e.delta = 0 ∧
          e.recommendation = "HOLD" :=
  ⟨C10_falsy_prices_default_to_50.1 _ (Or.inr rfl) (Or.inl rfl),
    C10_falsy_prices_default_to_50.2 _ _ (List.mem_singleton.mpr rfl)
      (Or.inr rfl) (Or.inl rfl)⟩

/-- C7 witness: the binary market `["Yes", "No"]` at overall probability 70
with no foundational odds at all. -/
theorem C7_binary_yes_no_witness :
    ((generate_outcome_estimates
        [⟨"Yes", some 40, none, none, none⟩, ⟨"No", some 60, none, none, none⟩]
        none (some ⟨some 70, some "bullish", some ""⟩)).map
        (fun e => (e.outcome_name, e.grok_probability))).Perm
      [("Yes", (70 : ℚ)), ("No", (30 : ℚ))] :=
  C7_binary_yes_no ⟨"Yes", some 40, none, none, none⟩
    ⟨"No", some 60, none, none, none⟩ none ⟨some 70, some "bullish", some ""⟩
    rfl rfl rfl rfl rfl

/-! ### Helper lemmas: cache dictionaries -/

/-- Looking up a key right after inserting it finds the inserted value. -/
theorem dictGet_dictInsert {α : Type} (l : List (String × α)) (k : String)
    (v : α) : dictGet (dictInsert l k v) k = some v := by
  unfold dictInsert dictGet
  split_ifs with h
  · induction l with
    | nil => simp at h
    | cons p ps ih =>
      by_cases hk : p.1 = k
      · simp [List.find?, hk]
      · simp only [List.any_cons, Bool.or_eq_true, decide_eq_true_eq] at h
        rcases h with h | h
        · exact absurd h hk
        · simpa [List.find?, hk] using ih h
  · induction l with
    | nil => simp [List.find?]
    | cons p ps ih =>
      simp only [List.any_cons, Bool.or_eq_true, decide_eq_true_eq,
        not_or] at h
      simpa [List.find?, h.1] using ih h.2

/-! ### Claim C5 -/

/-- C5 counterexample: a result stored at time 0 with the 30-minute TTL has
expiry timestamp 30, and a lookup at time 30 — where the expiry timestamp
equals the current time, so the claim requires absence — still returns the
entry (the code evicts only on `expires_at < now`, strictly). -/
theorem C5_boundary_counterexample :
    (get_cached
        (set_cached [] "k" ⟨"k", 0, 0 + CACHE_TTL_MINUTES, "T",
          none, none, none, none⟩)
        "k" (0 + CACHE_TTL_MINUTES)).1 =
      some ⟨"k", 0, 0 + CACHE_TTL_MINUTES, "T", none, none, none, none⟩ := by
  unfold get_cached set_cached
  rw [dictGet_dictInsert]
  norm_num [CACHE_TTL_MINUTES]

/-- C5 amended: a combined result stored at time `T` with the fixed TTL
(expiry timestamp `T + TTL`) is returned by the cache lookup for every query
time `T' ≤ T + TTL` and is absent for every `T' > T + TTL` (strictly after
expiry); an expired entry is evicted from the cache by that lookup. -/
theorem C5_cache_expiry (cache : Cache) (key : String) (cr : CachedResult)
    (T T' : ℚ) (hexp : cr.expires_at = T + CACHE_TTL_MINUTES) :
    (T' ≤ T + CACHE_TTL_MINUTES →
      get_cached (set_cached cache key cr) key T' =
        (some cr, set_cached cache key cr)) ∧
    (T + CACHE_TTL_MINUTES < T' →
      get_cached (set_cached cache key cr) key T' =
        (none, dictErase (set_cached cache key cr) key)) := by
  unfold get_cached set_cached
  rw [dictGet_dictInsert]
  constructor
  · intro h
    simp [hexp, not_lt.mpr h]
  · intro h
    simp [hexp, h]

/-- C5 witness: a concrete entry stored at time 0, looked up at times 30
(still returned) and 31 (absent and evicted). -/
theorem C5_cache_expiry_witness :
    (get_cached
        (set_cached [] "k" ⟨"k", 0, 30, "T", none, none, none, none⟩)
        "k" 30).1 =
      some ⟨"k", 0, 30, "T", none, none, none, none⟩ ∧
    (get_cached
        (set_cached [] "k" ⟨"k", 0, 30, "T", none, none, none, none⟩)
        "k" 31).1 = none := by
  have h := C5_cache_expiry [] "k" ⟨"k", 0, 30, "T", none, none, none, none⟩
    0 30 (by norm_num [CACHE_TTL_MINUTES])
  have h' := C5_cache_expiry [] "k" ⟨"k", 0, 30, "T", none, none, none, none⟩
    0 31 (by norm_num [CACHE_TTL_MINUTES])
  constructor
  · rw [h.1 (by norm_num [CACHE_TTL_MINUTES])]
  · rw [(C5_cache_expiry [] "k" ⟨"k", 0, 30, "T", none, none, none, none⟩
      0 31 (by norm_num [CACHE_TTL_MINUTES])).2
      (by norm_num [CACHE_TTL_MINUTES])]

/-! ### Helper lemmas: sorting outcome names -/

/-- `sorted` is a function of the multiset: permuted inputs sort equal. -/
theorem mergeSort_str_eq_of_perm {l1 l2 : List String} (h : l1.Perm l2) :
    l1.mergeSort (fun a b => decide (a ≤ b)) =
      l2.mergeSort (fun a b => decide (a ≤ b)) := by
  have sorted : ∀ l : List String,
      (l.mergeSort (fun a b => decide (a ≤ b))).Sorted (· ≤ ·) := by
    intro l
    have hs := @List.sorted_mergeSort _
      (fun a b : String => decide (a ≤ b))
      (fun a b c hab hbc => by
        simp only [decide_eq_true_eq] at *
        exact le_trans hab hbc)
      (fun a b => by
        simp only [Bool.or_eq_true, decide_eq_true_eq]
        exact le_total a b)
      l
    exact hs.imp (fun hab => by simpa using hab)
  exact List.eq_of_perm_of_sorted
    ((List.mergeSort_perm l1 _).trans (h.trans (List.mergeSort_perm l2 _).symm))
    (sorted l1) (sorted l2)

/-! ### Claim C4 -/

/-- C4: two requests that agree on market id and title and whose outcome-name
lists are permutations of each other — so they may differ arbitrarily in
outcome ordering and in the volatile price/volume fields (probability,
yesPrice, noPrice, volume, total_volume_usd), none of which enter the
payload — receive the same fingerprint from `generate_cache_key`. -/
theorem C4_fingerprint_determinism (r1 r2 : AnalyzeRequest)
    (hid : r1.market_id = r2.market_id)
    (ht : r1.market_title = r2.market_title)
    (hout : (r1.outcomes.map OutcomeData.name).Perm
      (r2.outcomes.map OutcomeData.name)) :
    generate_cache_key r1 = generate_cache_key r2 := by
  have hnames : sorted_outcome_names r1 = sorted_outcome_names r2 := by
    unfold sorted_outcome_names
    have h' := hout.map (fun n => pyLower (pyStrip n))
    rw [List.map_map, List.map_map] at h'
    exact mergeSort_str_eq_of_perm h'
  unfold generate_cache_key
  rw [hid, ht, hnames]

/-- C4 witness: the same market with outcomes reordered and all volatile
fields (prices, volumes) changed. -/
theorem C4_fingerprint_determinism_witness :
    (((⟨some "m1", "T", none, some 5,
          [⟨"Yes", some 40, some (2/5 : ℚ), none, some 1⟩,
           ⟨"No", some 60, none, none, none⟩], false⟩ :
        AnalyzeRequest).outcomes.map OutcomeData.name).Perm
      ((⟨some "m1", "T", some "u", some 7,
          [⟨"No", some 61, none, some 1, none⟩,
           ⟨"Yes", some 41, none, none, some 9⟩], true⟩ :
        AnalyzeRequest).outcomes.map OutcomeData.name)) ∧
    generate_cache_key
        ⟨some "m1", "T", none, some 5,
          [⟨"Yes", some 40, some (2/5 : ℚ), none, some 1⟩,
           ⟨"No", some 60, none, none, none⟩], false⟩ =
      generate_cache_key
        ⟨some "m1", "T", some "u", some 7,
          [⟨"No", some 61, none, some 1, none⟩,
           ⟨"Yes", some 41, none, none, some 9⟩], true⟩ :=
  ⟨by decide, C4_fingerprint_determinism _ _ rfl rfl (by decide)⟩

/-! ### Helper lemmas: the payload decoder inverts the serializer -/

/-- Hex digits decode back to their value. -/
theorem unhex_hexDig (d : Nat) (h : d < 16) : unhex (hexDig d) = some d := by
  interval_cases d <;> decide

/-- A character is never a high surrogate value. -/
theorem char_not_high_surrogate (c : Char) :
    ¬(55296 ≤ c.toNat ∧ c.toNat < 56320) := by
  have h : c.toNat < 55296 ∨ (57343 < c.toNat ∧ c.toNat < 1114112) := c.valid
  omega

/-- A character is never a low surrogate value. -/
theorem char_not_low_surrogate (c : Char) :
    ¬(56320 ≤ c.toNat ∧ c.toNat < 57344) := by
  have h : c.toNat < 55296 ∨ (57343 < c.toNat ∧ c.toNat < 1114112) := c.valid
  omega

/-- Four hex digits of a value below `0x10000` decode back to the value. -/
theorem unhex4_hex4 (v : Nat) (h : v < 65536) :
    unhex4 (hexDig (v / 4096 % 16)) (hexDig (v / 256 % 16))
      (hexDig (v / 16 % 16)) (hexDig (v % 16)) = some v := by
  rw [unhex4, unhex_hexDig _ (Nat.mod_lt _ (by norm_num)),
    unhex_hexDig _ (Nat.mod_lt _ (by norm_num)),
    unhex_hexDig _ (Nat.mod_lt _ (by norm_num)),
    unhex_hexDig _ (Nat.mod_lt _ (by norm_num))]
  simp only [Option.some.injEq]
  omega

/-- Unfolding `decEsc` on a `\uXXXX` head. -/
theorem decEsc_u (h1 h2 h3 h4 : Char) (rest : List Char) :
    decEsc ('\\' :: 'u' :: h1 :: h2 :: h3 :: h4 :: rest) =
      (match unhex4 h1 h2 h3 h4 with
      | none => none
      | some v =>
        if 55296 ≤ v ∧ v < 56320 then
          match rest with
          | s1 :: s2 :: g1 :: g2 :: g3 :: g4 :: rest4 =>
            if s1 = '\\' ∧ s2 = 'u' then
              match unhex4 g1 g2 g3 g4 with
              | none => none
              | some w =>
                if 56320 ≤ w ∧ w < 57344 then
                  some (Char.ofNat
                    (65536 + (v - 55296) * 1024 + (w - 56320)), rest4)
                else none
            else none
          | _ => none
        else if 56320 ≤ v ∧ v < 57344 then none
        else some (Char.ofNat v, rest)) := rfl

set_option maxHeartbeats 1600000 in
/-- Decoding the escape of one character recovers the character. -/
theorem decEsc_escapeChar (c : Char) (rest : List Char) :
    decEsc (escapeChar c ++ rest) = some (c, rest) := by
  have hval : c.toNat < 55296 ∨ (57343 < c.toNat ∧ c.toNat < 1114112) :=
    c.valid
  unfold escapeChar
  split_ifs with hq hb hcb hcf hcn hcr hct hctl hascii hbmp
  · subst hq; rfl
  · subst hb; rfl
  · subst hcb; rfl
  · subst hcf; rfl
  · subst hcn; rfl
  · subst hcr; rfl
  · subst hct; rfl
  · -- other control characters: \u00XX
    simp only [hex4, List.cons_append, List.nil_append]
    rw [decEsc_u, unhex4_hex4 c.toNat (by omega)]
    dsimp only
    rw [if_neg (by omega), if_neg (by omega), Char.ofNat_toNat]
  · -- printable ASCII: literal
    simp only [List.cons_append, List.nil_append]
    simp [decEsc, hq, hb]
  · -- other BMP characters: \uXXXX
    simp only [hex4, List.cons_append, List.nil_append]
    rw [decEsc_u, unhex4_hex4 c.toNat (by omega)]
    dsimp only
    rw [if_neg (char_not_high_surrogate c),
      if_neg (char_not_low_surrogate c), Char.ofNat_toNat]
  · -- astral characters: a surrogate pair
    have ht : 65536 ≤ c.toNat := by omega
    have ht2 : c.toNat < 1114112 := by omega
    simp only [hex4, List.cons_append, List.nil_append, List.append_assoc]
    rw [decEsc_u,
      unhex4_hex4 _ (show 55296 + (c.toNat - 65536) / 1024 < 65536 by omega)]
    dsimp only
    rw [if_pos (by constructor <;> omega)]
    rw [if_pos (show ('\\' = '\\' ∧ 'u' = 'u') from ⟨rfl, rfl⟩)]
    rw [unhex4_hex4 _ (show 56320 + (c.toNat - 65536) % 1024 < 65536
      by omega)]
    dsimp only
    rw [if_pos (by constructor <;> omega)]
    have harith : 65536 + (55296 + (c.toNat - 65536) / 1024 - 55296) * 1024 +
        (56320 + (c.toNat - 65536) % 1024 - 56320) = c.toNat := by omega
    rw [harith, Char.ofNat_toNat]

/-- `escStr` distributes over cons. -/
theorem escStr_cons (c : Char) (s : List Char) :
    escStr (c :: s) = escapeChar c ++ escStr s := by
  simp [escStr]

/-- An escape sequence is nonempty and never starts with a quote. -/
theorem escapeChar_head (c : Char) :
    ∃ hd tl, escapeChar c = hd :: tl ∧ hd ≠ '"' := by
  unfold escapeChar
  by_cases hq : c = '"'
  · rw [if_pos hq]; exact ⟨'\\', _, rfl, by decide⟩
  rw [if_neg hq]
  by_cases hb : c = '\\'
  · rw [if_pos hb]; exact ⟨'\\', _, rfl, by decide⟩
  rw [if_neg hb]
  by_cases hcb : c = '\x08'
  · rw [if_pos hcb]; exact ⟨'\\', _, rfl, by decide⟩
  rw [if_neg hcb]
  by_cases hcf : c = '\x0c'
  · rw [if_pos hcf]; exact ⟨'\\', _, rfl, by decide⟩
  rw [if_neg hcf]
  by_cases hcn : c = '\n'
  · rw [if_pos hcn]; exact ⟨'\\', _, rfl, by decide⟩
  rw [if_neg hcn]
  by_cases hcr : c = '\r'
  · rw [if_pos hcr]; exact ⟨'\\', _, rfl, by decide⟩
  rw [if_neg hcr]
  by_cases hct : c = '\t'
  · rw [if_pos hct]; exact ⟨'\\', _, rfl, by decide⟩
  rw [if_neg hct]
  by_cases hctl : c.toNat < 32
  · rw [if_pos hctl]; exact ⟨'\\', _, rfl, by decide⟩
  rw [if_neg hctl]
  by_cases hascii : c.toNat ≤ 126
  · rw [if_pos hascii]; exact ⟨c, [], rfl, hq⟩
  rw [if_neg hascii]
  by_cases hbmp : c.toNat < 65536
  · rw [if_pos hbmp]; exact ⟨'\\', _, rfl, by decide⟩
  rw [if_neg hbmp]
  exact ⟨'\\', _, by rw [List.cons_append, List.cons_append], by decide⟩

/-- Escaping never shortens a string. -/
theorem escStr_length_ge (s : List Char) : s.length ≤ (escStr s).length := by
  induction s with
  | nil => simp [escStr]
  | cons c s ih =>
    rw [escStr_cons, List.length_append, List.length_cons]
    obtain ⟨hd, tl, hhd, -⟩ := escapeChar_head c
    have : 0 < (escapeChar c).length := by rw [hhd]; simp
    omega

/-- Decoding an escaped body up to the closing quote recovers the body. -/
theorem decBody_escStr :
    ∀ (s : List Char) (fuel : Nat), s.length ≤ fuel → ∀ rest : List Char,
      decBody fuel (escStr s ++ '"' :: rest) = some (s, rest) := by
  intro s
  induction s with
  | nil =>
    intro fuel _ rest
    show decBody fuel ('"' :: rest) = some ([], rest)
    cases fuel <;> rfl
  | cons c s ih =>
    intro fuel hf rest
    cases fuel with
    | zero => simp at hf
    | succ f =>
      obtain ⟨hd, tl, hhd, hne⟩ := escapeChar_head c
      rw [escStr_cons, List.append_assoc, hhd, List.cons_append]
      simp only [decBody]
      rw [if_neg hne]
      rw [← List.cons_append, ← hhd,
        decEsc_escapeChar c (escStr s ++ '"' :: rest)]
      dsimp only
      rw [ih f (by simp at hf; omega) rest]

/-- Stripping an expected literal off itself succeeds. -/
theorem stripLit_append (p l : List Char) : stripLit p (p ++ l) = some l := by
  induction p with
  | nil => rfl
  | cons c ps ih => simp [stripLit, ih]

/-- Decoding a serialized nonempty name list terminated by `]}` recovers the
names. -/
theorem decItems_commaJoin :
    ∀ (names : List (List Char)) (fuel : Nat), names.length ≤ fuel →
      names ≠ [] →
      decItems fuel (commaJoin (names.map jsonStr) ++ [']', '\x7d']) =
        some names := by
  intro names
  induction names with
  | nil => intro fuel _ h; exact absurd rfl h
  | cons n ns ih =>
    intro fuel hf _
    cases fuel with
    | zero => simp at hf
    | succ f =>
      cases ns with
      | nil =>
        show decItems (f + 1)
          (commaJoin [jsonStr n] ++ [']', '\x7d']) = some [n]
        have hshape : commaJoin [jsonStr n] ++ [']', '\x7d'] =
            '"' :: (escStr n ++ '"' :: [']', '\x7d']) := by
          simp [commaJoin, jsonStr]
        rw [hshape]
        simp only [decItems]
        rw [decBody_escStr n _ (by
          have := escStr_length_ge n
          simp [List.length_append]
          omega) [']', '\x7d']]
        dsimp only
        rw [if_pos rfl]
      | cons m ms =>
        have hshape : commaJoin ((n :: m :: ms).map jsonStr) ++ [']', '\x7d'] =
            '"' :: (escStr n ++ '"' ::
              (',' :: ' ' ::
                (commaJoin ((m :: ms).map jsonStr) ++ [']', '\x7d']))) := by
          simp [commaJoin, jsonStr]
        rw [hshape]
        simp only [decItems]
        rw [decBody_escStr n _ (by
          have := escStr_length_ge n
          simp [List.length_append]
          omega) _]
        dsimp only
        rw [if_neg (by
          intro h
          injection h with h1 _
          exact absurd h1 (by decide))]
        change (match decItems f
            (commaJoin ((m :: ms).map jsonStr) ++ [']', '\x7d']) with
          | none => none
          | some ss => some (n :: ss)) = some (n :: m :: ms)
        rw [ih f (by simp at hf ⊢; omega) (by simp)]

/-- Lower bound on the serialized length of a name list. -/
theorem commaJoin_length_ge :
    ∀ names : List (List Char),
      names.length ≤ (commaJoin (names.map jsonStr) ++ [']', '\x7d']).length := by
  intro names
  induction names with
  | nil => simp
  | cons n ns ih =>
    cases ns with
    | nil => simp [commaJoin, jsonStr]
    | cons m ms =>
      have hshape : commaJoin ((n :: m :: ms).map jsonStr) ++ [']', '\x7d'] =
          jsonStr n ++ ',' :: ' ' ::
            (commaJoin ((m :: ms).map jsonStr) ++ [']', '\x7d']) := by
        simp [commaJoin]
      rw [hshape]
      simp only [List.length_append, List.length_cons] at ih ⊢
      simp [jsonStr] at *
      omega

/-- The decoder inverts the payload serializer. -/
theorem decodePayload_rawPayloadL (mid : List Char)
    (names : List (List Char)) :
    decodePayload (rawPayloadL mid names) = some (mid, names) := by
  have hsplit : rawPayloadL mid names =
      "\x7b\"market_id\": \"".data ++
        (escStr mid ++ '"' :: (", \"outcome_names\": [".data ++
          (commaJoin (names.map jsonStr) ++ [']', '\x7d']))) := by
    unfold rawPayloadL jsonStr
    rw [show ("\x7b\"market_id\": \"".data : List Char) =
      "\x7b\"market_id\": ".data ++ ['"'] from by decide]
    rw [show ("]\x7d".data : List Char) = [']', '\x7d'] from by decide]
    simp [List.append_assoc]
  unfold decodePayload
  rw [hsplit, stripLit_append]
  dsimp only
  rw [decBody_escStr mid _ (by
    have := escStr_length_ge mid
    simp [List.length_append]
    omega)]
  dsimp only
  rw [stripLit_append]
  dsimp only
  cases names with
  | nil =>
    rw [show commaJoin (([] : List (List Char)).map jsonStr) ++
      [']', '\x7d'] = [']', '\x7d'] from rfl]
    rw [if_pos rfl]
  | cons n ns =>
    have hne : commaJoin ((n :: ns).map jsonStr) ++ [']', '\x7d'] ≠
        [']', '\x7d'] := by
      cases ns <;> simp [commaJoin, jsonStr]
    rw [if_neg hne]
    rw [decItems_commaJoin (n :: ns) _ (commaJoin_length_ge (n :: ns))
      (by simp)]

/-- The payload serializer is injective. -/
theorem rawPayloadL_inj {m1 m2 : List Char} {n1 n2 : List (List Char)}
    (h : rawPayloadL m1 n1 = rawPayloadL m2 n2) : m1 = m2 ∧ n1 = n2 := by
  have h1 := decodePayload_rawPayloadL m1 n1
  rw [h, decodePayload_rawPayloadL m2 n2] at h1
  simp only [Option.some.injEq, Prod.mk.injEq] at h1
  exact ⟨h1.1.symm, h1.2.symm⟩

/-- The payload serializer is injective at the string level. -/
theorem rawPayload_inj {s1 s2 : String} {l1 l2 : List String}
    (h : rawPayload s1 l1 = rawPayload s2 l2) : s1 = s2 ∧ l1 = l2 := by
  have hdata : Function.Injective String.data := by
    intro a b hd
    cases a
    cases b
    exact congrArg String.mk (by simpa using hd)
  obtain ⟨h1, h2⟩ := rawPayloadL_inj h
  exact ⟨hdata h1, (List.map_injective_iff.mpr hdata) h2⟩

/-! ### Claim C6 -/

/-- C6 counterexample: two requests that differ in their set of outcome
names — `["Yes"]` versus `["yes "]` — but receive the same fingerprint,
because `generate_cache_key` strips and lowercases the names before
hashing.  (The names are not even permutations of each other, so the sets
differ however duplicates are counted.) -/
theorem C6_sensitivity_counterexample :
    ¬ (((⟨some "m1", "T", none, none, [⟨"Yes", none, none, none, none⟩],
          false⟩ : AnalyzeRequest).outcomes.map OutcomeData.name).Perm
        ((⟨some "m1", "T", none, none, [⟨"yes ", none, none, none, none⟩],
          false⟩ : AnalyzeRequest).outcomes.map OutcomeData.name)) ∧
    generate_cache_key
        ⟨some "m1", "T", none, none, [⟨"Yes", none, none, none, none⟩],
          false⟩ =
      generate_cache_key
        ⟨some "m1", "T", none, none, [⟨"yes ", none, none, none, none⟩],
          false⟩ := by
  constructor
  · decide
  · have hnames : sorted_outcome_names
        ⟨some "m1", "T", none, none, [⟨"Yes", none, none, none, none⟩],
          false⟩ =
        sorted_outcome_names
          ⟨some "m1", "T", none, none, [⟨"yes ", none, none, none, none⟩],
            false⟩ := by
      show ([pyLower (pyStrip "Yes")]).mergeSort (fun a b => decide (a ≤ b)) =
        ([pyLower (pyStrip "yes ")]).mergeSort (fun a b => decide (a ≤ b))
      rw [List.mergeSort_singleton, List.mergeSort_singleton]
      decide
    unfold generate_cache_key
    rw [hnames]

/-- C6 amended: two requests that differ in market identity (`market_id` if
truthy, else `market_title`) or in the multiset of *normalized* (stripped,
lowercased) outcome names are serialized by `generate_cache_key` to
different pre-hash payloads — so their fingerprints can only coincide on a
collision of the truncated SHA-256 digest, which the final conjunct shows is
the only remaining step of the fingerprint computation. -/
theorem C6_fingerprint_sensitivity :
    (∀ r1 r2 : AnalyzeRequest,
      (pyOrStr r1.market_id r1.market_title ≠
          pyOrStr r2.market_id r2.market_title ∨
        ¬ (r1.outcomes.map (fun o => pyLower (pyStrip o.name))).Perm
            (r2.outcomes.map (fun o => pyLower (pyStrip o.name)))) →
      rawPayload (pyOrStr r1.market_id r1.market_title)
          (sorted_outcome_names r1) ≠
        rawPayload (pyOrStr r2.market_id r2.market_title)
          (sorted_outcome_names r2)) ∧
    ∀ r : AnalyzeRequest,
      generate_cache_key r =
        ⟨(hexOfBytes (sha256bytes (utf8
          (rawPayload (pyOrStr r.market_id r.market_title)
            (sorted_outcome_names r))))).take 16⟩ := by
  constructor
  · intro r1 r2 h heq
    obtain ⟨hid, hnames⟩ := rawPayload_inj heq
    rcases h with h | h
    · exact h hid
    · apply h
      have p1 := List.mergeSort_perm
        (r1.outcomes.map (fun o => pyLower (pyStrip o.name)))
        (fun a b => decide (a ≤ b))
      have p2 := List.mergeSort_perm
        (r2.outcomes.map (fun o => pyLower (pyStrip o.name)))
        (fun a b => decide (a ≤ b))
      unfold sorted_outcome_names at hnames
      exact p1.symm.trans (hnames ▸ p2)
  · intro r
    rfl

/-- C6 amended witness: two requests differing in market identity get
different pre-hash payloads. -/
theorem C6_fingerprint_sensitivity_witness :
    rawPayload
        (pyOrStr (⟨some "a", "T", none, none, [], false⟩ :
          AnalyzeRequest).market_id "T")
        (sorted_outcome_names ⟨some "a", "T", none, none, [], false⟩) ≠
      rawPayload
        (pyOrStr (⟨some "b", "T", none, none, [], false⟩ :
          AnalyzeRequest).market_id "T")
        (sorted_outcome_names ⟨some "b", "T", none, none, [], false⟩) :=
  C6_fingerprint_sensitivity.1
    ⟨some "a", "T", none, none, [], false⟩
    ⟨some "b", "T", none, none, [], false⟩
    (Or.inl (by decide))

/-! ### Helper lemmas: job item sequences and merges -/

/-- The foundational job enqueues progress events and then exactly one
marker, last. -/
theorem run_foundational_shape (frn : FoundRun) :
    ∃ l', run_foundational_in_thread frn =
        l' ++ [QItem.complete "foundational" (.fr (foundResult frn))] ∧
      ∀ it ∈ l', isEv it = true := by
  refine ⟨(sync_foundational frn).1.map (QItem.ev "foundational"), rfl, ?_⟩
  intro it hit
  obtain ⟨e, -, rfl⟩ := List.mem_map.mp hit
  rfl

/-- The historical job enqueues progress events and then exactly one marker,
last. -/
theorem run_historical_shape (hrn : HistRun) :
    ∃ l', run_historical hrn =
        l' ++ [QItem.complete "historical" (.hr (histResult hrn))] ∧
      ∀ it ∈ l', isEv it = true := by
  cases hrn with
  | ok r exitErr =>
    cases exitErr with
    | none =>
      refine ⟨[QItem.ev "historical" (.status "Starting historical research..."),
        QItem.ev "historical" (.complete_hist r.overall_sentiment
          r.probability_estimate r.overall_confidence)], rfl, ?_⟩
      simp [isEv]
    | some msg =>
      refine ⟨[QItem.ev "historical" (.status "Starting historical research..."),
        QItem.ev "historical" (.complete_hist r.overall_sentiment
          r.probability_estimate r.overall_confidence),
        QItem.ev "historical" (.error msg)], rfl, ?_⟩
      simp [isEv]
  | exc msg =>
    refine ⟨[QItem.ev "historical" (.status "Starting historical research..."),
      QItem.ev "historical" (.error msg)], rfl, ?_⟩
    simp [isEv]

/-- The prominent-figures job enqueues progress events and then exactly one
marker, last. -/
theorem run_prominent_figures_shape (xrn : XRun) :
    ∃ l', run_prominent_figures xrn =
        l' ++ [QItem.complete "x_sentiment" (.xr (xResult xrn))] ∧
      ∀ it ∈ l', isEv it = true := by
  cases xrn <;>
    · refine ⟨_, rfl, ?_⟩
      simp [isEv]

/-- Concatenation is one legal interleaving. -/
theorem isMerge_append (a b c : List QItem) : IsMerge a b c (a ++ b ++ c) := by
  induction a with
  | nil =>
    induction b with
    | nil =>
      induction c with
      | nil => exact .nil
      | cons x cs ihc => exact .cons₃ x ihc
    | cons x bs ihb => exact .cons₂ x ihb
  | cons x as iha => exact .cons₁ x iha

/-- Items of the first source occur in the merge. -/
theorem IsMerge.mem₁ {a b c m : List QItem} (h : IsMerge a b c m) {x : QItem}
    (hx : x ∈ a) : x ∈ m := by
  induction h with
  | nil => cases hx
  | cons₁ y h ih =>
    rcases List.mem_cons.mp hx with rfl | hx
    · exact List.mem_cons_self _ _
    · exact List.mem_cons_of_mem _ (ih hx)
  | cons₂ y h ih => exact List.mem_cons_of_mem _ (ih hx)
  | cons₃ y h ih => exact List.mem_cons_of_mem _ (ih hx)

/-- Items of the second source occur in the merge. -/
theorem IsMerge.mem₂ {a b c m : List QItem} (h : IsMerge a b c m) {x : QItem}
    (hx : x ∈ b) : x ∈ m := by
  induction h with
  | nil => cases hx
  | cons₁ y h ih => exact List.mem_cons_of_mem _ (ih hx)
  | cons₂ y h ih =>
    rcases List.mem_cons.mp hx with rfl | hx
    · exact List.mem_cons_self _ _
    · exact List.mem_cons_of_mem _ (ih hx)
  | cons₃ y h ih => exact List.mem_cons_of_mem _ (ih hx)

/-- Items of the third source occur in the merge. -/
theorem IsMerge.mem₃ {a b c m : List QItem} (h : IsMerge a b c m) {x : QItem}
    (hx : x ∈ c) : x ∈ m := by
  induction h with
  | nil => cases hx
  | cons₁ y h ih => exact List.mem_cons_of_mem _ (ih hx)
  | cons₂ y h ih => exact List.mem_cons_of_mem _ (ih hx)
  | cons₃ y h ih =>
    rcases List.mem_cons.mp hx with rfl | hx
    · exact List.mem_cons_self _ _
    · exact List.mem_cons_of_mem _ (ih hx)

/-! ### Helper lemmas: the draining loop -/

/-- `relayAll` distributes over cons. -/
theorem relayAll_cons (it : QItem) (l : List QItem) :
    relayAll (it :: l) = relayItem it ++ relayAll l := by
  simp [relayAll]

/-- One loop iteration that dequeues a completion marker. -/
theorem drainLoop_step_marker (disc : Option Nat) (i : Nat) (fc hc xc : Bool)
    (rF : Option FoundationalDict) (rH : Option HistoricalDict)
    (rX : Option XResult) (name : String) (r : JobResult)
    (rest : List QItem) (hnotall : (fc && hc && xc) = false)
    (hdisc : discAt disc i = false) :
    drainLoop disc i fc hc xc rF rH rX (QItem.complete name r :: rest) =
      (let d := drainLoop disc (i + 1) (fc || name == "foundational")
        (hc || name == "historical") (xc || name == "x_sentiment")
        (match r with | .fr v => v | _ => rF)
        (match r with | .hr v => v | _ => rH)
        (match r with | .xr v => v | _ => rX) rest
      { d with out := .task_complete name :: d.out }) := by
  cases r <;>
    · rw [drainLoop]
      rw [if_neg (by simp [hnotall]), if_neg (by simp [hdisc])]

/-- One loop iteration that dequeues a progress event. -/
theorem drainLoop_step_ev (disc : Option Nat) (i : Nat) (fc hc xc : Bool)
    (rF : Option FoundationalDict) (rH : Option HistoricalDict)
    (rX : Option XResult) (src : String) (e : Ev) (rest : List QItem)
    (hnotall : (fc && hc && xc) = false) (hdisc : discAt disc i = false) :
    drainLoop disc i fc hc xc rF rH rX (QItem.ev src e :: rest) =
      (let d := drainLoop disc (i + 1) fc hc xc rF rH rX rest
      { d with out := relay src e ++ d.out }) := by
  rw [drainLoop]
  rw [if_neg (by simp [hnotall]), if_neg (by simp [hdisc])]

/-- The master draining lemma with an attached consumer: on any interleaving
of three job tails that each still end in their completion marker (or are
already done), the loop with no disconnection relays every item, observes
all three markers, never starves or cancels, and ends up with each job's
result slot holding the payload of that job's marker (or the slot value
recorded before the loop, for a job already complete). -/
theorem drainLoop_complete {a b c m : List QItem} (hm : IsMerge a b c m) :
    ∀ (i : Nat) (fc hc xc : Bool) (rF : Option FoundationalDict)
      (rH : Option HistoricalDict) (rX : Option XResult)
      (rfv : Option FoundationalDict) (rhv : Option HistoricalDict)
      (rxv : Option XResult),
    goodTail "foundational" (.fr rfv) a fc →
    goodTail "historical" (.hr rhv) b hc →
    goodTail "x_sentiment" (.xr rxv) c xc →
    drainLoop none i fc hc xc rF rH rX m =
      ⟨relayAll m, false, [], false, true, true, true,
        (if fc then rF else rfv), (if hc then rH else rhv),
        (if xc then rX else rxv)⟩ := by
  induction hm with
  | nil =>
    intro i fc hc xc rF rH rX rfv rhv rxv ga gb gc
    have hfc : fc = true := by
      rcases ga with ⟨h, -⟩ | ⟨-, l', hl, -⟩
      · exact h
      · exact absurd hl.symm (by simp)
    have hhc : hc = true := by
      rcases gb with ⟨h, -⟩ | ⟨-, l', hl, -⟩
      · exact h
      · exact absurd hl.symm (by simp)
    have hxc : xc = true := by
      rcases gc with ⟨h, -⟩ | ⟨-, l', hl, -⟩
      · exact h
      · exact absurd hl.symm (by simp)
    subst hfc; subst hhc; subst hxc
    rw [drainLoop]
    simp [relayAll]
  | cons₁ x hm' ih =>
    intro i fc hc xc rF rH rX rfv rhv rxv ga gb gc
    rcases ga with ⟨-, ha⟩ | ⟨hfc, l', hl, hev⟩
    · exact absurd ha (by simp)
    subst hfc
    cases l' with
    | nil =>
      simp only [List.nil_append, List.cons.injEq] at hl
      obtain ⟨rfl, rfl⟩ := hl
      rw [drainLoop_step_marker none i _ _ _ _ _ _ _ _ _ (by simp) (by rfl)]
      simp only [show (("foundational" : String) == "foundational") = true
          from by decide,
        show (("foundational" : String) == "historical") = false from by decide,
        show (("foundational" : String) == "x_sentiment") = false
          from by decide,
        Bool.or_true, Bool.or_false]
      rw [ih (i + 1) true hc xc rfv rH rX rfv rhv rxv
        (Or.inl ⟨rfl, rfl⟩) gb gc]
      simp [relayAll_cons, relayItem]
    | cons y l'' =>
      simp only [List.cons_append, List.cons.injEq] at hl
      obtain ⟨rfl, rfl⟩ := hl
      cases x with
      | complete n r =>
        exact absurd (hev _ (List.mem_cons_self _ _)) (by simp [isEv])
      | ev src e =>
        rw [drainLoop_step_ev none i _ _ _ _ _ _ _ _ _ (by simp) (by rfl)]
        dsimp only
        rw [ih (i + 1) false hc xc rF rH rX rfv rhv rxv
          (Or.inr ⟨rfl, l'', rfl, fun it h => hev it (List.mem_cons_of_mem _ h)⟩)
          gb gc]
        simp [relayAll_cons, relayItem]
  | cons₂ x hm' ih =>
    intro i fc hc xc rF rH rX rfv rhv rxv ga gb gc
    rcases gb with ⟨-, hb⟩ | ⟨hhc, l', hl, hev⟩
    · exact absurd hb (by simp)
    subst hhc
    cases l' with
    | nil =>
      simp only [List.nil_append, List.cons.injEq] at hl
      obtain ⟨rfl, rfl⟩ := hl
      rw [drainLoop_step_marker none i _ _ _ _ _ _ _ _ _ (by simp) (by rfl)]
      simp only [show (("historical" : String) == "foundational") = false
          from by decide,
        show (("historical" : String) == "historical") = true from by decide,
        show (("historical" : String) == "x_sentiment") = false
          from by decide,
        Bool.or_true, Bool.or_false]
      rw [ih (i + 1) fc true xc rF rhv rX rfv rhv rxv ga
        (Or.inl ⟨rfl, rfl⟩) gc]
      simp [relayAll_cons, relayItem]
    | cons y l'' =>
      simp only [List.cons_append, List.cons.injEq] at hl
      obtain ⟨rfl, rfl⟩ := hl
      cases x with
      | complete n r =>
        exact absurd (hev _ (List.mem_cons_self _ _)) (by simp [isEv])
      | ev src e =>
        rw [drainLoop_step_ev none i _ _ _ _ _ _ _ _ _ (by simp) (by rfl)]
        dsimp only
        rw [ih (i + 1) fc false xc rF rH rX rfv rhv rxv ga
          (Or.inr ⟨rfl, l'', rfl, fun it h => hev it (List.mem_cons_of_mem _ h)⟩)
          gc]
        simp [relayAll_cons, relayItem]
  | cons₃ x hm' ih =>
    intro i fc hc xc rF rH rX rfv rhv rxv ga gb gc
    rcases gc with ⟨-, hcl⟩ | ⟨hxc, l', hl, hev⟩
    · exact absurd hcl (by simp)
    subst hxc
    cases l' with
    | nil =>
      simp only [List.nil_append, List.cons.injEq] at hl
      obtain ⟨rfl, rfl⟩ := hl
      rw [drainLoop_step_marker none i _ _ _ _ _ _ _ _ _ (by simp) (by rfl)]
      simp only [show (("x_sentiment" : String) == "foundational") = false
          from by decide,
        show (("x_sentiment" : String) == "historical") = false from by decide,
        show (("x_sentiment" : String) == "x_sentiment") = true
          from by decide,
        Bool.or_true, Bool.or_false]
      rw [ih (i + 1) fc hc true rF rH rxv rfv rhv rxv ga gb
        (Or.inl ⟨rfl, rfl⟩)]
      simp [relayAll_cons, relayItem]
    | cons y l'' =>
      simp only [List.cons_append, List.cons.injEq] at hl
      obtain ⟨rfl, rfl⟩ := hl
      cases x with
      | complete n r =>
        exact absurd (hev _ (List.mem_cons_self _ _)) (by simp [isEv])
      | ev src e =>
        rw [drainLoop_step_ev none i _ _ _ _ _ _ _ _ _ (by simp) (by rfl)]
        dsimp only
        rw [ih (i + 1) fc hc false rF rH rX rfv rhv rxv ga gb
          (Or.inr ⟨rfl, l'', rfl, fun it h => hev it (List.mem_cons_of_mem _ h)⟩)]
        simp [relayAll_cons, relayItem]

/-- Characterization of a full (never-disconnected) orchestrated run on any
queue interleaving of the three jobs: the stream is the two initial status
events, the relay of every queue item, the optional estimates event and the
final `result` + `done`; the combined result's slots hold exactly each job's
terminal result, and it is written to the cache. -/
theorem stream_complete (req : AnalyzeRequest) (ck : String) (cache : Cache)
    (now : ℚ) (frn : FoundRun) (hrn : HistRun) (xrn : XRun)
    (m : List QItem)
    (hm : IsMerge (run_foundational_in_thread frn) (run_historical hrn)
      (run_prominent_figures xrn) m) :
    run_parallel_analysis_stream req ck cache now m none =
      ⟨[SSE.status_init, SSE.status_parallel_start] ++ relayAll m ++
        (if (generate_outcome_estimates req.outcomes (foundResult frn)
            (histResult hrn)).isEmpty then []
          else [SSE.outcome_estimates (generate_outcome_estimates req.outcomes
            (foundResult frn) (histResult hrn))]) ++
        [SSE.result
          { cache_key := ck
            created_at := now
            expires_at := now + CACHE_TTL_MINUTES
            market_title := req.market_title
            foundational_data := foundResult frn
            historical_analysis := histResult hrn
            prominent_figures_analysis := xResult xrn
            outcome_estimates := some (generate_outcome_estimates req.outcomes
              (foundResult frn) (histResult hrn)) }, SSE.done],
        set_cached cache ck
          { cache_key := ck
            created_at := now
            expires_at := now + CACHE_TTL_MINUTES
            market_title := req.market_title
            foundational_data := foundResult frn
            historical_analysis := histResult hrn
            prominent_figures_analysis := xResult xrn
            outcome_estimates := some (generate_outcome_estimates req.outcomes
              (foundResult frn) (histResult hrn)) }, []⟩ := by
  obtain ⟨la, hla, heva⟩ := run_foundational_shape frn
  obtain ⟨lb, hlb, hevb⟩ := run_historical_shape hrn
  obtain ⟨lc, hlc, hevc⟩ := run_prominent_figures_shape xrn
  have hd := drainLoop_complete hm 0 false false false none none none
    (foundResult frn) (histResult hrn) (xResult xrn)
    (Or.inr ⟨rfl, la, hla, heva⟩) (Or.inr ⟨rfl, lb, hlb, hevb⟩)
    (Or.inr ⟨rfl, lc, hlc, hevc⟩)
  unfold run_parallel_analysis_stream
  rw [hd]
  simp

/-- Every SSE event relayed from the queue is a progress-type event: never
`result`, `done` or `cancelled`. -/
theorem relayAll_mem_shape {m : List QItem} {s : SSE} (h : s ∈ relayAll m) :
    (∀ cr, s ≠ SSE.result cr) ∧ s ≠ SSE.done ∧ s ≠ SSE.cancelled := by
  unfold relayAll at h
  obtain ⟨piece, hp, hs⟩ := List.mem_flatten.mp h
  obtain ⟨it, -, rfl⟩ := List.mem_map.mp hp
  cases it with
  | complete n r =>
    simp only [relayItem, List.mem_singleton] at hs
    subst hs
    refine ⟨?_, ?_, ?_⟩ <;> simp
  | ev src e =>
    cases e <;> simp only [relayItem, relay] at hs <;>
      (try split_ifs at hs) <;> cases hs <;>
      first
        | (exact absurd ‹_ ∈ ([] : List SSE)› (List.not_mem_nil _))
        | (refine ⟨?_, ?_, ?_⟩ <;> simp)

/-- A relayed stream contains no `result` payloads. -/
theorem resultEvents_relayAll (m : List QItem) :
    resultEvents (relayAll m) = [] := by
  unfold resultEvents
  rw [List.filterMap_eq_nil_iff]
  intro s hs
  obtain ⟨hr, -, -⟩ := relayAll_mem_shape hs
  cases s <;> simp_all

/-- An error event pushed by a job surfaces on the output stream. -/
theorem error_mem_relayAll {m : List QItem} {src msg : String}
    (h : QItem.ev src (.error msg) ∈ m) : SSE.error src msg ∈ relayAll m := by
  unfold relayAll
  rw [List.mem_flatten]
  exact ⟨relayItem (QItem.ev src (.error msg)),
    List.mem_map_of_mem _ h, by simp [relayItem, relay]⟩

/-- A completion marker surfaces as a `task_complete` event. -/
theorem task_complete_mem_relayAll {m : List QItem} {name : String}
    {r : JobResult} (h : QItem.complete name r ∈ m) :
    SSE.task_complete name ∈ relayAll m := by
  unfold relayAll
  rw [List.mem_flatten]
  exact ⟨relayItem (QItem.complete name r),
    List.mem_map_of_mem _ h, by simp [relayItem]⟩

/-- The `result` payloads of a full run's output: exactly the one combined
result. -/
theorem resultEvents_form (m : List QItem) (ests : List OutcomeEstimate)
    (cr : CachedResult) :
    resultEvents ([SSE.status_init, SSE.status_parallel_start] ++ relayAll m ++
      (if ests.isEmpty then [] else [SSE.outcome_estimates ests]) ++
      [SSE.result cr, SSE.done]) = [cr] := by
  unfold resultEvents
  rw [List.filterMap_append, List.filterMap_append, List.filterMap_append]
  have h1 := resultEvents_relayAll m
  unfold resultEvents at h1
  rw [h1]
  split_ifs <;> rfl

/-- A full run's output ends with `done`. -/
theorem output_getLast (l : List SSE) (cr : CachedResult) :
    (l ++ [SSE.result cr, SSE.done]).getLast? = some SSE.done := by
  rw [show l ++ [SSE.result cr, SSE.done] =
    (l ++ [SSE.result cr]) ++ [SSE.done] from by simp]
  exact List.getLast?_concat _

/-- Each job's marker is among its enqueued items. -/
theorem marker_mem_foundational (frn : FoundRun) :
    QItem.complete "foundational" (.fr (foundResult frn)) ∈
      run_foundational_in_thread frn := by
  obtain ⟨l', hl, -⟩ := run_foundational_shape frn
  rw [hl]
  exact List.mem_append_right _ (List.mem_singleton.mpr rfl)

/-- Each job's marker is among its enqueued items. -/
theorem marker_mem_historical (hrn : HistRun) :
    QItem.complete "historical" (.hr (histResult hrn)) ∈
      run_historical hrn := by
  obtain ⟨l', hl, -⟩ := run_historical_shape hrn
  rw [hl]
  exact List.mem_append_right _ (List.mem_singleton.mpr rfl)

/-- Each job's marker is among its enqueued items. -/
theorem marker_mem_x (xrn : XRun) :
    QItem.complete "x_sentiment" (.xr (xResult xrn)) ∈
      run_prominent_figures xrn := by
  obtain ⟨l', hl, -⟩ := run_prominent_figures_shape xrn
  rw [hl]
  exact List.mem_append_right _ (List.mem_singleton.mpr rfl)

/-- A raising job pushes an error event onto the queue. -/
theorem error_mem_merge {frn : FoundRun} {hrn : HistRun} {xrn : XRun}
    {m : List QItem}
    (hm : IsMerge (run_foundational_in_thread frn) (run_historical hrn)
      (run_prominent_figures xrn) m)
    {j : String} (hj : j ∈ jobNames) (h : jobRaises j frn hrn xrn) :
    ∃ msg, QItem.ev j (.error msg) ∈ m := by
  simp only [jobNames, List.mem_cons, List.not_mem_nil, or_false] at hj
  rcases hj with rfl | rfl | rfl
  · simp only [jobRaises, if_pos] at h
    cases frn with
    | run evs raised =>
      cases raised with
      | none => exact absurd h (by simp)
      | some msg =>
        refine ⟨msg, hm.mem₁ ?_⟩
        unfold run_foundational_in_thread sync_foundational
        simp
    | timeout msg =>
      exact ⟨msg, hm.mem₁ (by
        unfold run_foundational_in_thread sync_foundational
        simp)⟩
    | execExc msg =>
      exact ⟨msg, hm.mem₁ (by
        unfold run_foundational_in_thread sync_foundational
        simp)⟩
  · simp only [jobRaises] at h
    cases hrn with
    | ok r exitErr =>
      cases exitErr with
      | none => simp at h
      | some msg =>
        exact ⟨msg, hm.mem₂ (by unfold run_historical; simp)⟩
    | exc msg => exact ⟨msg, hm.mem₂ (by unfold run_historical; simp)⟩
  · simp only [jobRaises] at h
    cases xrn with
    | excGen msg =>
      exact ⟨msg, hm.mem₃ (by unfold run_prominent_figures; simp)⟩
    | excFetch fd msg =>
      exact ⟨msg, hm.mem₃ (by unfold run_prominent_figures; simp)⟩
    | excAnalyze fd t msg =>
      exact ⟨msg, hm.mem₃ (by unfold run_prominent_figures; simp)⟩
    | zeroFigures fd => simp at h
    | zeroTweets fd => simp at h
    | ok fd t resp => simp at h

/-! ### Claim C1 -/

/-- C1 counterexample: the foundational job's generator raises an exception
internally *after* a content event has already parsed.  The job contributes
an error-kind event, all jobs complete and a `result` event is emitted —
but the foundational result slot is populated with the already-parsed
result, not null, contradicting the claim's "null result slot". -/
theorem C1_nonnull_slot_counterexample :
    jobRaises "foundational"
        (.run [.content (.parsed ⟨none⟩)] (some "boom"))
        (.ok ⟨"bullish", (70 : ℚ), "high", ""⟩ none)
        (.zeroFigures ⟨[], ""⟩) ∧
    SSE.error "foundational" "boom" ∈
      (run_parallel_analysis_stream ⟨none, "T", none, none, [], false⟩ "k"
        [] 0
        (run_foundational_in_thread
            (.run [.content (.parsed ⟨none⟩)] (some "boom")) ++
          run_historical (.ok ⟨"bullish", (70 : ℚ), "high", ""⟩ none) ++
          run_prominent_figures (.zeroFigures ⟨[], ""⟩)) none).output ∧
    ∀ cr ∈ resultEvents
        (run_parallel_analysis_stream ⟨none, "T", none, none, [], false⟩ "k"
          [] 0
          (run_foundational_in_thread
              (.run [.content (.parsed ⟨none⟩)] (some "boom")) ++
            run_historical (.ok ⟨"bullish", (70 : ℚ), "high", ""⟩ none) ++
            run_prominent_figures (.zeroFigures ⟨[], ""⟩)) none).output,
      cr.foundational_data ≠ none := by
  have hs := stream_complete ⟨none, "T", none, none, [], false⟩ "k" [] 0
    (.run [.content (.parsed ⟨none⟩)] (some "boom"))
    (.ok ⟨"bullish", (70 : ℚ), "high", ""⟩ none) (.zeroFigures ⟨[], ""⟩) _
    (isMerge_append _ _ _)
  refine ⟨by simp [jobRaises], ?_, ?_⟩
  · rw [hs]
    have hitem : QItem.ev "foundational" (.error "boom") ∈
        (run_foundational_in_thread
            (.run [.content (.parsed ⟨none⟩)] (some "boom")) ++
          run_historical (.ok ⟨"bullish", (70 : ℚ), "high", ""⟩ none) ++
          run_prominent_figures (.zeroFigures ⟨[], ""⟩)) := by
      refine List.mem_append_left _ (List.mem_append_left _ ?_)
      unfold run_foundational_in_thread sync_foundational procGen
      simp
    simp only [List.mem_append]
    exact Or.inl (Or.inl (Or.inr (error_mem_relayAll hitem)))
  · intro cr hcr
    rw [hs] at hcr
    rw [resultEvents_form] at hcr
    rw [List.mem_singleton] at hcr
    subst hcr
    show foundResult (.run [.content (.parsed ⟨none⟩)] (some "boom")) ≠ none
    unfold foundResult sync_foundational procGen
    simp

/-- C1 amended: if one analysis job raises an exception internally, the
other jobs still reach their completion markers, the failed job contributes
an error-kind event, and the orchestrator still emits a `result` event
followed by `done` in which every slot — including the failed one — holds
exactly that job's own terminal result (null whenever the job had not
already produced a result before the exception, as in every
failure-before-result path). -/
theorem C1_failure_isolation (req : AnalyzeRequest) (ck : String)
    (cache : Cache) (now : ℚ) (frn : FoundRun) (hrn : HistRun) (xrn : XRun)
    (m : List QItem) (j : String)
    (hm : IsMerge (run_foundational_in_thread frn) (run_historical hrn)
      (run_prominent_figures xrn) m)
    (hj : j ∈ jobNames) (hraise : jobRaises j frn hrn xrn) :
    (∀ j' ∈ jobNames, SSE.task_complete j' ∈
      (run_parallel_analysis_stream req ck cache now m none).output) ∧
    (∃ msg, SSE.error j msg ∈
      (run_parallel_analysis_stream req ck cache now m none).output) ∧
    ∃ cr, resultEvents
        (run_parallel_analysis_stream req ck cache now m none).output =
        [cr] ∧
      (run_parallel_analysis_stream req ck cache now m none).output.getLast? =
        some SSE.done ∧
      cr.foundational_data = foundResult frn ∧
      cr.historical_analysis = histResult hrn ∧
      cr.prominent_figures_analysis = xResult xrn := by
  rw [stream_complete req ck cache now frn hrn xrn m hm]
  refine ⟨?_, ?_, ?_⟩
  · intro j' hj'
    simp only [jobNames, List.mem_cons, List.not_mem_nil, or_false] at hj'
    simp only [List.mem_append]
    rcases hj' with rfl | rfl | rfl
    · exact Or.inl (Or.inl (Or.inr
        (task_complete_mem_relayAll (hm.mem₁ (marker_mem_foundational frn)))))
    · exact Or.inl (Or.inl (Or.inr
        (task_complete_mem_relayAll (hm.mem₂ (marker_mem_historical hrn)))))
    · exact Or.inl (Or.inl (Or.inr
        (task_complete_mem_relayAll (hm.mem₃ (marker_mem_x xrn)))))
  · obtain ⟨msg, hmem⟩ := error_mem_merge hm hj hraise
    refine ⟨msg, ?_⟩
    simp only [List.mem_append]
    exact Or.inl (Or.inl (Or.inr (error_mem_relayAll hmem)))
  · exact ⟨_, resultEvents_form m _ _, output_getLast _ _, rfl, rfl, rfl⟩

/-- C1 amended witness: a concrete run where the foundational job times out
(raises) while the other two jobs succeed, on the concatenation
interleaving. -/
theorem C1_failure_isolation_witness :
    (∀ j' ∈ jobNames, SSE.task_complete j' ∈
      (run_parallel_analysis_stream ⟨none, "T", none, none, [], false⟩ "k"
        [] 0
        (run_foundational_in_thread (.timeout "t") ++
          run_historical (.ok ⟨"bullish", (70 : ℚ), "high", ""⟩ none) ++
          run_prominent_figures (.zeroFigures ⟨[], ""⟩)) none).output) ∧
    (∃ msg, SSE.error "foundational" msg ∈
      (run_parallel_analysis_stream ⟨none, "T", none, none, [], false⟩ "k"
        [] 0
        (run_foundational_in_thread (.timeout "t") ++
          run_historical (.ok ⟨"bullish", (70 : ℚ), "high", ""⟩ none) ++
          run_prominent_figures (.zeroFigures ⟨[], ""⟩)) none).output) ∧
    ∃ cr, resultEvents
        (run_parallel_analysis_stream ⟨none, "T", none, none, [], false⟩ "k"
          [] 0
          (run_foundational_in_thread (.timeout "t") ++
            run_historical (.ok ⟨"bullish", (70 : ℚ), "high", ""⟩ none) ++
            run_prominent_figures (.zeroFigures ⟨[], ""⟩)) none).output =
        [cr] ∧
      (run_parallel_analysis_stream ⟨none, "T", none, none, [], false⟩ "k"
        [] 0
        (run_foundational_in_thread (.timeout "t") ++
          run_historical (.ok ⟨"bullish", (70 : ℚ), "high", ""⟩ none) ++
          run_prominent_figures (.zeroFigures ⟨[], ""⟩))
          none).output.getLast? = some SSE.done ∧
      cr.foundational_data = foundResult (.timeout "t") ∧
      cr.historical_analysis =
        histResult (.ok ⟨"bullish", (70 : ℚ), "high", ""⟩ none) ∧
      cr.prominent_figures_analysis = xResult (.zeroFigures ⟨[], ""⟩) :=
  C1_failure_isolation ⟨none, "T", none, none, [], false⟩ "k" [] 0
    (.timeout "t") (.ok ⟨"bullish", (70 : ℚ), "high", ""⟩ none)
    (.zeroFigures ⟨[], ""⟩) _ "foundational" (isMerge_append _ _ _)
    (by decide) (by simp [jobRaises])


/-- Exit step: with all three flags set the loop returns immediately. -/
theorem drainLoop_exit_done (disc : Option Nat) (i : Nat) (fc hc xc : Bool)
    (rF : Option FoundationalDict) (rH : Option HistoricalDict)
    (rX : Option XResult) (m : List QItem) (hall : (fc && hc && xc) = true) :
    drainLoop disc i fc hc xc rF rH rX m =
      ⟨[], false, [], false, fc, hc, xc, rF, rH, rX⟩ := by
  rw [drainLoop.eq_def, if_pos hall]

/-- Exit step: an observed disconnection cancels the not-yet-complete jobs. -/
theorem drainLoop_exit_disc (disc : Option Nat) (i : Nat) (fc hc xc : Bool)
    (rF : Option FoundationalDict) (rH : Option HistoricalDict)
    (rX : Option XResult) (m : List QItem) (hall : (fc && hc && xc) = false)
    (hdisc : discAt disc i = true) :
    drainLoop disc i fc hc xc rF rH rX m =
      ⟨[.cancelled], true,
        (if fc then [] else ["foundational"]) ++
          (if hc then [] else ["historical"]) ++
          (if xc then [] else ["x_sentiment"]),
        false, fc, hc, xc, rF, rH, rX⟩ := by
  rw [drainLoop.eq_def, if_neg (by simp [hall]), if_pos hdisc]

/-- Exit step: an empty queue with jobs outstanding starves the loop. -/
theorem drainLoop_exit_nil (disc : Option Nat) (i : Nat) (fc hc xc : Bool)
    (rF : Option FoundationalDict) (rH : Option HistoricalDict)
    (rX : Option XResult) (hall : (fc && hc && xc) = false)
    (hdisc : discAt disc i = false) :
    drainLoop disc i fc hc xc rF rH rX [] =
      ⟨[], false, [], true, fc, hc, xc, rF, rH, rX⟩ := by
  rw [drainLoop.eq_def, if_neg (by simp [hall]), if_neg (by simp [hdisc])]

/-- A marker search skips a progress event at the head. -/
theorem hasMarker_cons_ev (name src : String) (e : Ev) (rest : List QItem) :
    hasMarker name (QItem.ev src e :: rest) = hasMarker name rest := by
  simp [hasMarker]

/-- A marker search at a completion marker checks its job name. -/
theorem hasMarker_cons_marker (name n : String) (r : JobResult)
    (rest : List QItem) :
    hasMarker name (QItem.complete n r :: rest) =
      ((n == name) || hasMarker name rest) := by
  simp [hasMarker]

/-- A draining loop that stops normally (neither starved nor cancelled) has
marked all three jobs complete. -/
theorem drainLoop_exit_all_complete :
    ∀ (m : List QItem) (disc : Option Nat) (i : Nat) (fc hc xc : Bool)
      (rF : Option FoundationalDict) (rH : Option HistoricalDict)
      (rX : Option XResult),
      (drainLoop disc i fc hc xc rF rH rX m).starved = false →
      (drainLoop disc i fc hc xc rF rH rX m).cancelled = false →
      (drainLoop disc i fc hc xc rF rH rX m).fc = true ∧
        (drainLoop disc i fc hc xc rF rH rX m).hc = true ∧
        (drainLoop disc i fc hc xc rF rH rX m).xc = true := by
  intro m
  induction m with
  | nil =>
    intro disc i fc hc xc rF rH rX h1 h2
    by_cases hall : (fc && hc && xc) = true
    · rw [drainLoop_exit_done _ _ _ _ _ _ _ _ _ hall]
      simp only [Bool.and_eq_true] at hall
      exact ⟨hall.1.1, hall.1.2, hall.2⟩
    · by_cases hdisc : discAt disc i = true
      · rw [drainLoop_exit_disc _ _ _ _ _ _ _ _ _
          (by simpa using hall) hdisc] at h2
        simp at h2
      · rw [drainLoop_exit_nil _ _ _ _ _ _ _ _
          (by simpa using hall) (by simpa using hdisc)] at h1
        simp at h1
  | cons it rest ih =>
    intro disc i fc hc xc rF rH rX h1 h2
    by_cases hall : (fc && hc && xc) = true
    · rw [drainLoop_exit_done _ _ _ _ _ _ _ _ _ hall]
      simp only [Bool.and_eq_true] at hall
      exact ⟨hall.1.1, hall.1.2, hall.2⟩
    · by_cases hdisc : discAt disc i = true
      · rw [drainLoop_exit_disc _ _ _ _ _ _ _ _ _
          (by simpa using hall) hdisc] at h2
        simp at h2
      · cases it with
        | ev src e =>
          rw [drainLoop_step_ev disc i _ _ _ _ _ _ _ _ _
            (by simpa using hall) (by simpa using hdisc)] at h1 h2 ⊢
          exact ih disc (i + 1) fc hc xc rF rH rX h1 h2
        | complete name r =>
          rw [drainLoop_step_marker disc i _ _ _ _ _ _ _ _ _
            (by simpa using hall) (by simpa using hdisc)] at h1 h2 ⊢
          exact ih disc (i + 1) _ _ _ _ _ _ h1 h2

/-- A completion flag can only be set by the initial state or by a marker of
that job among the drained items. -/
theorem drainLoop_flag_from :
    ∀ (m : List QItem) (disc : Option Nat) (i : Nat) (fc hc xc : Bool)
      (rF : Option FoundationalDict) (rH : Option HistoricalDict)
      (rX : Option XResult),
      ((drainLoop disc i fc hc xc rF rH rX m).fc = true →
        fc = true ∨ hasMarker "foundational" m = true) ∧
      ((drainLoop disc i fc hc xc rF rH rX m).hc = true →
        hc = true ∨ hasMarker "historical" m = true) ∧
      ((drainLoop disc i fc hc xc rF rH rX m).xc = true →
        xc = true ∨ hasMarker "x_sentiment" m = true) := by
  intro m
  induction m with
  | nil =>
    intro disc i fc hc xc rF rH rX
    by_cases hall : (fc && hc && xc) = true
    · rw [drainLoop_exit_done _ _ _ _ _ _ _ _ _ hall]
      exact ⟨fun h => Or.inl h, fun h => Or.inl h, fun h => Or.inl h⟩
    · by_cases hdisc : discAt disc i = true
      · rw [drainLoop_exit_disc _ _ _ _ _ _ _ _ _ (by simpa using hall) hdisc]
        exact ⟨fun h => Or.inl h, fun h => Or.inl h, fun h => Or.inl h⟩
      · rw [drainLoop_exit_nil _ _ _ _ _ _ _ _
          (by simpa using hall) (by simpa using hdisc)]
        exact ⟨fun h => Or.inl h, fun h => Or.inl h, fun h => Or.inl h⟩
  | cons it rest ih =>
    intro disc i fc hc xc rF rH rX
    by_cases hall : (fc && hc && xc) = true
    · rw [drainLoop_exit_done _ _ _ _ _ _ _ _ _ hall]
      exact ⟨fun h => Or.inl h, fun h => Or.inl h, fun h => Or.inl h⟩
    · by_cases hdisc : discAt disc i = true
      · rw [drainLoop_exit_disc _ _ _ _ _ _ _ _ _ (by simpa using hall) hdisc]
        exact ⟨fun h => Or.inl h, fun h => Or.inl h, fun h => Or.inl h⟩
      · cases it with
        | ev src e =>
          rw [drainLoop_step_ev disc i _ _ _ _ _ _ _ _ _
            (by simpa using hall) (by simpa using hdisc),
            hasMarker_cons_ev, hasMarker_cons_ev, hasMarker_cons_ev]
          have ih' := ih disc (i + 1) fc hc xc rF rH rX
          exact ⟨fun h => ih'.1 h, fun h => ih'.2.1 h, fun h => ih'.2.2 h⟩
        | complete name r =>
          rw [drainLoop_step_marker disc i _ _ _ _ _ _ _ _ _
            (by simpa using hall) (by simpa using hdisc),
            hasMarker_cons_marker, hasMarker_cons_marker,
            hasMarker_cons_marker]
          have ih' := ih disc (i + 1) (fc || name == "foundational")
            (hc || name == "historical") (xc || name == "x_sentiment")
            (match r with | .fr v => v | _ => rF)
            (match r with | .hr v => v | _ => rH)
            (match r with | .xr v => v | _ => rX)
          refine ⟨fun h => ?_, fun h => ?_, fun h => ?_⟩
          · rcases ih'.1 h with h' | h'
            · rcases Bool.or_eq_true_iff.mp h' with h'' | h''
              · exact Or.inl h''
              · exact Or.inr (by simp [h''])
            · exact Or.inr (by simp [h'])
          · rcases ih'.2.1 h with h' | h'
            · rcases Bool.or_eq_true_iff.mp h' with h'' | h''
              · exact Or.inl h''
              · exact Or.inr (by simp [h''])
            · exact Or.inr (by simp [h'])
          · rcases ih'.2.2 h with h' | h'
            · rcases Bool.or_eq_true_iff.mp h' with h'' | h''
              · exact Or.inl h''
              · exact Or.inr (by simp [h''])
            · exact Or.inr (by simp [h'])

/-- A positive marker search yields a member marker. -/
theorem hasMarker_exists {name : String} {m : List QItem}
    (h : hasMarker name m = true) : ∃ r, QItem.complete name r ∈ m := by
  unfold hasMarker at h
  rw [List.any_eq_true] at h
  obtain ⟨it, hit, hp⟩ := h
  cases it with
  | ev _ _ => simp at hp
  | complete n r =>
    refine ⟨r, ?_⟩
    rwa [show n = name from by simpa using hp] at hit

/-- C2: every analysis job, on every execution path (success, empty-data
early return, internal exception, timeout), enqueues exactly one completion
marker, as the last item it enqueues (every earlier item it enqueues is a
progress event, never a marker); and whenever the draining loop, started from
the orchestrator's initial state, terminates normally (neither starved nor
cancelled), its queue contained a completion marker for each of the three
jobs. -/
theorem C2_completion_markers :
    (∀ frn : FoundRun, ∃ l,
      run_foundational_in_thread frn =
          l ++ [QItem.complete "foundational" (.fr (foundResult frn))] ∧
        ∀ it ∈ l, isEv it = true) ∧
    (∀ hrn : HistRun, ∃ l,
      run_historical hrn =
          l ++ [QItem.complete "historical" (.hr (histResult hrn))] ∧
        ∀ it ∈ l, isEv it = true) ∧
    (∀ xrn : XRun, ∃ l,
      run_prominent_figures xrn =
          l ++ [QItem.complete "x_sentiment" (.xr (xResult xrn))] ∧
        ∀ it ∈ l, isEv it = true) ∧
    (∀ (m : List QItem) (disc : Option Nat),
      (drainLoop disc 0 false false false none none none m).starved = false →
      (drainLoop disc 0 false false false none none none m).cancelled = false →
      (∃ r, QItem.complete "foundational" r ∈ m) ∧
        (∃ r, QItem.complete "historical" r ∈ m) ∧
        (∃ r, QItem.complete "x_sentiment" r ∈ m)) := by
  refine ⟨run_foundational_shape, run_historical_shape,
    run_prominent_figures_shape, ?_⟩
  intro m disc h1 h2
  obtain ⟨hfc, hhc, hxc⟩ :=
    drainLoop_exit_all_complete m disc 0 false false false none none none h1 h2
  have hff := drainLoop_flag_from m disc 0 false false false none none none
  refine ⟨?_, ?_, ?_⟩
  · rcases hff.1 hfc with h | h
    · simp at h
    · exact hasMarker_exists h
  · rcases hff.2.1 hhc with h | h
    · simp at h
    · exact hasMarker_exists h
  · rcases hff.2.2 hxc with h | h
    · simp at h
    · exact hasMarker_exists h

/-- The normal-exit conjunct of C2 at a concrete queue. -/
theorem C2_completion_markers_witness :
    (∃ r, QItem.complete "foundational" r ∈
        ([QItem.complete "foundational" (.fr none),
          QItem.complete "historical" (.hr none),
          QItem.complete "x_sentiment" (.xr none)] : List QItem)) ∧
      (∃ r, QItem.complete "historical" r ∈
        ([QItem.complete "foundational" (.fr none),
          QItem.complete "historical" (.hr none),
          QItem.complete "x_sentiment" (.xr none)] : List QItem)) ∧
      (∃ r, QItem.complete "x_sentiment" r ∈
        ([QItem.complete "foundational" (.fr none),
          QItem.complete "historical" (.hr none),
          QItem.complete "x_sentiment" (.xr none)] : List QItem)) :=
  C2_completion_markers.2.2.2
    [QItem.complete "foundational" (.fr none),
      QItem.complete "historical" (.hr none),
      QItem.complete "x_sentiment" (.xr none)] none rfl rfl

/-- Draining under a disconnection observed before the `k - i`-th dequeue:
the loop relays exactly the items before the disconnection check, emits the
single cancellation notice, never starves, and signals cancellation to
precisely the jobs whose completion marker it has not yet observed. -/
theorem drainLoop_disc :
    ∀ (m : List QItem) (k i : Nat) (fc hc xc : Bool)
      (rF : Option FoundationalDict) (rH : Option HistoricalDict)
      (rX : Option XResult),
      i ≤ k → k - i ≤ m.length →
      (∀ j, j ≤ k - i →
        ((fc || hasMarker "foundational" (m.take j)) &&
          (hc || hasMarker "historical" (m.take j)) &&
          (xc || hasMarker "x_sentiment" (m.take j))) = false) →
      (drainLoop (some k) i fc hc xc rF rH rX m).out =
          relayAll (m.take (k - i)) ++ [SSE.cancelled] ∧
        (drainLoop (some k) i fc hc xc rF rH rX m).cancelled = true ∧
        (drainLoop (some k) i fc hc xc rF rH rX m).starved = false ∧
        (drainLoop (some k) i fc hc xc rF rH rX m).cancelSignalled =
          (if fc || hasMarker "foundational" (m.take (k - i)) then []
            else ["foundational"]) ++
            (if hc || hasMarker "historical" (m.take (k - i)) then []
              else ["historical"]) ++
            (if xc || hasMarker "x_sentiment" (m.take (k - i)) then []
              else ["x_sentiment"]) := by
  intro m
  induction m with
  | nil =>
    intro k i fc hc xc rF rH rX hik hlen hnot
    have hall : (fc && hc && xc) = false := by
      simpa [hasMarker] using hnot 0 (Nat.zero_le _)
    have hdisc : discAt (some k) i = true := by
      simp only [discAt, decide_eq_true_eq]
      simp only [List.length_nil, Nat.le_zero] at hlen
      omega
    rw [drainLoop_exit_disc _ _ _ _ _ _ _ _ _ hall hdisc]
    exact ⟨by simp [relayAll], rfl, rfl, by simp [hasMarker]⟩
  | cons it rest ih =>
    intro k i fc hc xc rF rH rX hik hlen hnot
    have hall : (fc && hc && xc) = false := by
      simpa [hasMarker] using hnot 0 (Nat.zero_le _)
    by_cases hki : k ≤ i
    · have hdisc : discAt (some k) i = true := by
        simp [discAt, hki]
      have h0 : k - i = 0 := by omega
      rw [drainLoop_exit_disc _ _ _ _ _ _ _ _ _ hall hdisc, h0]
      exact ⟨by simp [relayAll], rfl, rfl, by simp [hasMarker]⟩
    · have hdisc : discAt (some k) i = false := by
        simp only [discAt, decide_eq_false_iff_not]
        omega
      have hik' : i + 1 ≤ k := by omega
      have hstep : k - i = (k - (i + 1)) + 1 := by omega
      have hlen' : k - (i + 1) ≤ rest.length := by
        simp only [List.length_cons] at hlen
        omega
      cases it with
      | ev src e =>
        have hnot' : ∀ j, j ≤ k - (i + 1) →
            ((fc || hasMarker "foundational" (rest.take j)) &&
              (hc || hasMarker "historical" (rest.take j)) &&
              (xc || hasMarker "x_sentiment" (rest.take j))) = false := by
          intro j hj
          have h := hnot (j + 1) (by omega)
          simpa [List.take_succ_cons, hasMarker_cons_ev] using h
        have hres := ih k (i + 1) fc hc xc rF rH rX hik' hlen' hnot'
        rw [drainLoop_step_ev (some k) i _ _ _ _ _ _ _ _ _ hall hdisc]
        dsimp only
        refine ⟨?_, hres.2.1, hres.2.2.1, ?_⟩
        · rw [hres.1, hstep, List.take_succ_cons, relayAll_cons]
          simp [relayItem]
        · rw [hres.2.2.2, hstep, List.take_succ_cons]
          simp [hasMarker_cons_ev]
      | complete name r =>
        have hnot' : ∀ j, j ≤ k - (i + 1) →
            (((fc || (name == "foundational")) ||
                hasMarker "foundational" (rest.take j)) &&
              ((hc || (name == "historical")) ||
                hasMarker "historical" (rest.take j)) &&
              ((xc || (name == "x_sentiment")) ||
                hasMarker "x_sentiment" (rest.take j))) = false := by
          intro j hj
          have h := hnot (j + 1) (by omega)
          simpa [List.take_succ_cons, hasMarker_cons_marker,
            Bool.or_assoc] using h
        rw [drainLoop_step_marker (some k) i _ _ _ _ _ _ _ _ _ hall hdisc]
        cases r with
        | fr v =>
          have hres := ih k (i + 1) (fc || name == "foundational")
            (hc || name == "historical") (xc || name == "x_sentiment")
            v rH rX hik' hlen' hnot'
          dsimp only
          refine ⟨?_, hres.2.1, hres.2.2.1, ?_⟩
          · rw [hres.1, hstep, List.take_succ_cons, relayAll_cons]
            simp [relayItem]
          · rw [hres.2.2.2, hstep, List.take_succ_cons]
            simp [hasMarker_cons_marker, Bool.or_assoc]
        | hr v =>
          have hres := ih k (i + 1) (fc || name == "foundational")
            (hc || name == "historical") (xc || name == "x_sentiment")
            rF v rX hik' hlen' hnot'
          dsimp only
          refine ⟨?_, hres.2.1, hres.2.2.1, ?_⟩
          · rw [hres.1, hstep, List.take_succ_cons, relayAll_cons]
            simp [relayItem]
          · rw [hres.2.2.2, hstep, List.take_succ_cons]
            simp [hasMarker_cons_marker, Bool.or_assoc]
        | xr v =>
          have hres := ih k (i + 1) (fc || name == "foundational")
            (hc || name == "historical") (xc || name == "x_sentiment")
            rF rH v hik' hlen' hnot'
          dsimp only
          refine ⟨?_, hres.2.1, hres.2.2.1, ?_⟩
          · rw [hres.1, hstep, List.take_succ_cons, relayAll_cons]
            simp [relayItem]
          · rw [hres.2.2.2, hstep, List.take_succ_cons]
            simp [hasMarker_cons_marker, Bool.or_assoc]

/-- C3: if the consumer disconnects before all three jobs have completed
(no prefix of the queue drained before the disconnection check contains all
three completion markers), the orchestrator emits the initial statuses, the
relayed events of the drained prefix and then a single `cancelled` event and
stops: the output contains exactly one `cancelled` event and no `result` or
`done` event, the cache is left untouched (nothing is written for the
fingerprint), and a cancel signal is sent to precisely the jobs whose
completion marker was not observed. -/
theorem C3_cancellation_suppresses_caching
    (req : AnalyzeRequest) (cache_key : String) (cache : Cache) (now : ℚ)
    (items : List QItem) (k : Nat) (hk : k ≤ items.length)
    (hincomplete : ∀ j, j ≤ k →
      (hasMarker "foundational" (items.take j) &&
        hasMarker "historical" (items.take j) &&
        hasMarker "x_sentiment" (items.take j)) = false) :
    (run_parallel_analysis_stream req cache_key cache now items
        (some k)).output =
      [SSE.status_init, SSE.status_parallel_start] ++
        relayAll (items.take k) ++ [SSE.cancelled] ∧
    (run_parallel_analysis_stream req cache_key cache now items
        (some k)).output.count SSE.cancelled = 1 ∧
    (∀ cr, SSE.result cr ∉
      (run_parallel_analysis_stream req cache_key cache now items
        (some k)).output) ∧
    SSE.done ∉
      (run_parallel_analysis_stream req cache_key cache now items
        (some k)).output ∧
    (run_parallel_analysis_stream req cache_key cache now items
        (some k)).cache = cache ∧
    (run_parallel_analysis_stream req cache_key cache now items
        (some k)).cancelSignalled =
      (if hasMarker "foundational" (items.take k) then []
        else ["foundational"]) ++
        (if hasMarker "historical" (items.take k) then []
          else ["historical"]) ++
        (if hasMarker "x_sentiment" (items.take k) then []
          else ["x_sentiment"]) := by
  have hd := drainLoop_disc items k 0 false false false none none none
    (Nat.zero_le k) (by simpa using hk)
    (by
      intro j hj
      simpa using hincomplete j (by omega))
  simp only [Nat.sub_zero, Bool.false_or] at hd
  have hstream : run_parallel_analysis_stream req cache_key cache now items
      (some k) =
      ⟨[SSE.status_init, SSE.status_parallel_start] ++
          (drainLoop (some k) 0 false false false none none none items).out,
        cache,
        (drainLoop (some k) 0 false false false none none none
          items).cancelSignalled⟩ := by
    unfold run_parallel_analysis_stream
    rw [if_pos hd.2.1]
  have hnc : SSE.cancelled ∉ relayAll (items.take k) := fun hmem =>
    (relayAll_mem_shape hmem).2.2 rfl
  rw [hstream]
  refine ⟨?_, ?_, ?_, ?_, rfl, ?_⟩
  · show [SSE.status_init, SSE.status_parallel_start] ++
        (drainLoop (some k) 0 false false false none none none items).out = _
    rw [hd.1]
    simp
  · show ([SSE.status_init, SSE.status_parallel_start] ++
        (drainLoop (some k) 0 false false false none none none
          items).out).count SSE.cancelled = 1
    rw [hd.1]
    rw [List.count_append, List.count_append,
      List.count_eq_zero.mpr hnc]
    simp
  · intro cr hmem
    rw [show (⟨[SSE.status_init, SSE.status_parallel_start] ++
          (drainLoop (some k) 0 false false false none none none items).out,
        cache,
        (drainLoop (some k) 0 false false false none none none
          items).cancelSignalled⟩ : StreamResult).output =
        [SSE.status_init, SSE.status_parallel_start] ++
          (drainLoop (some k) 0 false false false none none none items).out
        from rfl, hd.1] at hmem
    rcases List.mem_append.mp hmem with h | h
    · simp at h
    · rcases List.mem_append.mp h with h' | h'
      · exact (relayAll_mem_shape h').1 cr rfl
      · simp at h'
  · intro hmem
    rw [show (⟨[SSE.status_init, SSE.status_parallel_start] ++
          (drainLoop (some k) 0 false false false none none none items).out,
        cache,
        (drainLoop (some k) 0 false false false none none none
          items).cancelSignalled⟩ : StreamResult).output =
        [SSE.status_init, SSE.status_parallel_start] ++
          (drainLoop (some k) 0 false false false none none none items).out
        from rfl, hd.1] at hmem
    rcases List.mem_append.mp hmem with h | h
    · simp at h
    · rcases List.mem_append.mp h with h' | h'
      · exact (relayAll_mem_shape h').2.1 rfl
      · simp at h'
  · show (drainLoop (some k) 0 false false false none none none
        items).cancelSignalled = _
    rw [hd.2.2.2]

/-- The cancellation theorem at a concrete request: one relayed status event
drained, then disconnection at index 1 with no job complete. -/
theorem C3_cancellation_suppresses_caching_witness :
    (run_parallel_analysis_stream ⟨none, "T", none, none, [], false⟩ "k" [] 0
        [QItem.ev "historical" (.status "s")] (some 1)).output =
      [SSE.status_init, SSE.status_parallel_start] ++
        relayAll ([QItem.ev "historical" (.status "s")].take 1) ++
        [SSE.cancelled] ∧
    (run_parallel_analysis_stream ⟨none, "T", none, none, [], false⟩ "k" [] 0
        [QItem.ev "historical" (.status "s")]
        (some 1)).output.count SSE.cancelled = 1 ∧
    (∀ cr, SSE.result cr ∉
      (run_parallel_analysis_stream ⟨none, "T", none, none, [], false⟩ "k"
        [] 0 [QItem.ev "historical" (.status "s")] (some 1)).output) ∧
    SSE.done ∉
      (run_parallel_analysis_stream ⟨none, "T", none, none, [], false⟩ "k"
        [] 0 [QItem.ev "historical" (.status "s")] (some 1)).output ∧
    (run_parallel_analysis_stream ⟨none, "T", none, none, [], false⟩ "k" [] 0
        [QItem.ev "historical" (.status "s")] (some 1)).cache = [] ∧
    (run_parallel_analysis_stream ⟨none, "T", none, none, [], false⟩ "k" [] 0
        [QItem.ev "historical" (.status "s")] (some 1)).cancelSignalled =
      (if hasMarker "foundational"
          ([QItem.ev "historical" (.status "s")].take 1) then []
        else ["foundational"]) ++
        (if hasMarker "historical"
            ([QItem.ev "historical" (.status "s")].take 1) then []
          else ["historical"]) ++
        (if hasMarker "x_sentiment"
            ([QItem.ev "historical" (.status "s")].take 1) then []
          else ["x_sentiment"]) :=
  C3_cancellation_suppresses_caching ⟨none, "T", none, none, [], false⟩ "k"
    [] 0 [QItem.ev "historical" (.status "s")] 1 (by decide)
    (by
      intro j hj
      interval_cases j <;> decide)
